import Mathlib

/-!
Block-level work distribution of the parallel collector (rts/sm/GCUtils.c).

A shallow embedding of `grab_todo_block`, `push_scanned_block`,
`todo_block_full` and `alloc_todo_block`.

* Block descriptors live in a heap addressed by descriptor identity (a natural
  number); a `bdescr *` is an `Option Nat`, with `none` for `NULL`.
* Word addresses (`StgPtr`) are natural numbers (word indices), `NULL` is `0`;
  a difference of two addresses is a signed integer, as `ptrdiff_t` is.
* The intrusive lists are kept exactly as in the C code: a head pointer in the
  workspace or step plus the `link` field of each descriptor.
* `BLOCK_SIZE_W`, `WORK_UNIT_WORDS`, `N` and `BF_EVACUATED` come from headers and
  are parameters, collected in `Config`.
* `allocBlock` belongs to the block allocator; the descriptor it would return
  is an argument (`nb`) of the functions that may call it.
* `nat` is an unsigned 32-bit integer and `(int)size` its signed reading; the
  block counters are natural numbers (their C types are declared in headers).
-/

namespace GCUtils

/-- Constants and globals that `GCUtils.c` takes from its headers. -/
structure Config where
  BLOCK_SIZE_W : Nat
  WORK_UNIT_WORDS : Nat
  N : Nat
  BF_EVACUATED : Nat

/-- Block descriptor: the fields of `bdescr` that `GCUtils.c` reads or writes
(`scan` is `u.scan`, `step` is the address of the owning step). -/
structure bdescr where
  start : Nat
  free : Nat
  scan : Nat
  link : Option Nat
  gen_no : Nat
  step : Nat
  flags : Nat
deriving DecidableEq, Repr

/-- The fields of a `step` that `GCUtils.c` uses: its generation number and its
queue of todo blocks (head, tail, count). -/
structure step where
  gen_no : Nat
  todos : Option Nat
  todos_last : Option Nat
  n_todos : Nat
deriving DecidableEq, Repr

/-- Per-thread, per-step workspace (`step` is the address of the step it
belongs to, the step itself is held in `GcState.stp`). -/
structure step_workspace where
  step : Nat
  scan_bd : Option Nat
  todo_bd : Option Nat
  todo_free : Nat
  todo_lim : Nat
  buffer_todo_bd : Option Nat
  part_list : Option Nat
  n_part_blocks : Nat
  scavd_list : Option Nat
  n_scavd_blocks : Nat
deriving DecidableEq, Repr

/-- Memory seen by one call: the block descriptors, the workspace `ws` and the
step `stp` that `ws->step` points to. -/
structure GcState where
  heap : Nat → bdescr
  stp : step
  ws : step_workspace

/-- Store descriptor `d` at identity `b`. -/
def setBlock (h : Nat → bdescr) (b : Nat) (d : bdescr) : Nat → bdescr :=
  fun i => if i = b then d else h i

/-- The cast `(int)size` of an unsigned 32-bit `nat`. -/
def int_of_nat (size : Nat) : Int :=
  if size % 2 ^ 32 < 2 ^ 31 then ((size % 2 ^ 32 : Nat) : Int)
  else ((size % 2 ^ 32 : Nat) : Int) - 2 ^ 32

/-- Modelled from the spec: the macro `stg_min` of `Rts.h`, the smaller of its
two arguments. -/
def stg_min (a b : Nat) : Nat := if a ≤ b then a else b

/-- Modelled from the spec: the macro `stg_max` of `Rts.h`, the larger of its
two arguments. -/
def stg_max (a b : Nat) : Nat := if a ≤ b then b else a

/-- Embedding of `grab_todo_block` (lines 48-77): the buffered block if there
is one, else the head of the step's todo queue, else `NULL`. -/
def grab_todo_block (s : GcState) : GcState × Option Nat :=
  match s.ws.buffer_todo_bd with
  | some bd => ({ s with ws := { s.ws with buffer_todo_bd := none } }, some bd)
  | none =>
    match s.stp.todos with
    | some bd =>
      let last := if s.stp.todos = s.stp.todos_last then none else s.stp.todos_last
      ({ s with
          stp := { s.stp with
            todos_last := last
            todos := (s.heap bd).link
            n_todos := s.stp.n_todos - 1 }
          heap := setBlock s.heap bd { s.heap bd with link := none } },
       some bd)
    | none => (s, none)

/-- Embedding of `push_scanned_block` (lines 79-105). -/
def push_scanned_block (P : Config) (bd : Nat) (s : GcState) : GcState :=
  if ((s.heap bd).start + P.BLOCK_SIZE_W : Int) - (s.heap bd).free > P.WORK_UNIT_WORDS then
    { s with
        heap := setBlock s.heap bd { s.heap bd with link := s.ws.part_list }
        ws := { s.ws with part_list := some bd, n_part_blocks := s.ws.n_part_blocks + 1 } }
  else
    { s with
        heap := setBlock s.heap bd { s.heap bd with link := s.ws.scavd_list }
        ws := { s.ws with scavd_list := some bd, n_scavd_blocks := s.ws.n_scavd_blocks + 1 } }

/-- The publish step of `todo_block_full` (lines 157-166): append `bd` at the
tail of the step's todo queue and count it. -/
def publish (bd : Nat) (s : GcState) : GcState :=
  match s.stp.todos_last with
  | none =>
    { s with stp := { s.stp with todos_last := some bd, todos := some bd,
                                 n_todos := s.stp.n_todos + 1 } }
  | some l =>
    { s with
        heap := setBlock s.heap l { s.heap l with link := some bd }
        stp := { s.stp with todos_last := some bd, n_todos := s.stp.n_todos + 1 } }

/-- The test of lines 185-186 of `alloc_todo_block`: the head of `part_list`
when there is one and it has more than `(int)size` words left. -/
def part_block (P : Config) (size : Nat) (s : GcState) : Option Nat :=
  match s.ws.part_list with
  | some pb =>
    if ((s.heap pb).start + P.BLOCK_SIZE_W : Int) - (s.heap pb).free > int_of_nat size
    then some pb else none
  | none => none

/-- Lines 188-190 of `alloc_todo_block`: unlink the head `pb` of `part_list`. -/
def take_part_block (pb : Nat) (s : GcState) : GcState :=
  { s with ws := { s.ws with part_list := (s.heap pb).link,
                             n_part_blocks := s.ws.n_part_blocks - 1 } }

/-- Lines 194-205 of `alloc_todo_block`: initialise the block `nb` that
`allocBlock_sync()` returned. -/
def init_fresh_block (P : Config) (nb : Nat) (s : GcState) : GcState :=
  { s with
      heap := setBlock s.heap nb
        { s.heap nb with
          gen_no := s.stp.gen_no
          step := s.ws.step
          scan := (s.heap nb).start
          flags := if s.stp.gen_no ≤ P.N then P.BF_EVACUATED else 0 } }

/-- Lines 208-218 of `alloc_todo_block`: clear the link of `bd`, make it the
todo block and return its free pointer. -/
def install_todo_block (P : Config) (size : Nat) (bd : Nat) (s : GcState) : GcState × Nat :=
  let h := setBlock s.heap bd { s.heap bd with link := none }
  ({ s with
      heap := h
      ws := { s.ws with
        todo_bd := some bd
        todo_free := (h bd).free
        todo_lim := stg_min ((h bd).start + P.BLOCK_SIZE_W)
                            ((h bd).free + stg_max P.WORK_UNIT_WORDS size) } },
   (h bd).free)

/-- Embedding of `alloc_todo_block` (lines 179-219); `nb` is the descriptor
that `allocBlock_sync()` returns if it is called. -/
def alloc_todo_block (P : Config) (nb : Nat) (size : Nat) (s : GcState) : GcState × Nat :=
  match part_block P size s with
  | some pb => install_todo_block P size pb (take_part_block pb s)
  | none => install_todo_block P size nb (init_fresh_block P nb s)

/-- The first statement of `todo_block_full` (line 118): `bd->free = ws->todo_free`. -/
def sync_free (bd : Nat) (s : GcState) : GcState :=
  { s with heap := setBlock s.heap bd { s.heap bd with free := s.ws.todo_free } }

/-- The test of lines 124-126 of `todo_block_full`, after `bd->free` has been
written: is the limit of the todo block just increased? -/
def growth_path (P : Config) (size : Nat) (bd : Nat) (s : GcState) : Bool :=
  if s.stp.todos ≠ none ∨
      (((s.heap bd).free : Int) - (s.heap bd).scan < ((P.WORK_UNIT_WORDS / 2 : Nat) : Int)) then
    if (s.heap bd).free + size < (s.heap bd).start + P.BLOCK_SIZE_W then true else false
  else false

/-- Lines 127-130 of `todo_block_full`: increase the limit, return the cursor. -/
def grow_limit (P : Config) (size : Nat) (bd : Nat) (s : GcState) : GcState × Nat :=
  ({ s with ws := { s.ws with
      todo_lim := stg_min ((s.heap bd).start + P.BLOCK_SIZE_W)
                          (s.ws.todo_lim + stg_max P.WORK_UNIT_WORDS size) } },
   s.ws.todo_free)

/-- Lines 136-168 of `todo_block_full`: a todo block that is not the scan block
is pushed to a local list when it is fully scanned, and to the step's queue
otherwise. -/
def retire_block (P : Config) (bd : Nat) (s : GcState) : GcState :=
  if some bd ≠ s.ws.scan_bd then
    if (s.heap bd).scan = (s.heap bd).free then push_scanned_block P bd s
    else publish bd s
  else s

/-- Lines 170-176 of `todo_block_full`: forget the todo block and allocate a
new one. -/
def replace_block (P : Config) (nb : Nat) (size : Nat) (s : GcState) : GcState × Nat :=
  let s1 : GcState := { s with ws := { s.ws with todo_bd := none, todo_free := 0, todo_lim := 0 } }
  let s2 := (alloc_todo_block P nb size s1).1
  (s2, s2.ws.todo_free)

/-- Embedding of `todo_block_full` (lines 107-177); `none` when `ws->todo_bd` is
`NULL`, which the C code dereferences. `nb` is the descriptor that
`allocBlock_sync()` returns if it is called. -/
def todo_block_full (P : Config) (nb : Nat) (size : Nat) (s : GcState) : Option (GcState × Nat) :=
  match s.ws.todo_bd with
  | none => none
  | some bd =>
    let s1 := sync_free bd s
    if growth_path P size bd s1 then some (grow_limit P size bd s1)
    else some (replace_block P nb size (retire_block P bd s1))

/-- The blocks found by following `link` from `p` are exactly `l`, and the
last of them has no successor. -/
def Chain (h : Nat → bdescr) : Option Nat → List Nat → Prop
  | p, [] => p = none
  | p, b :: l => p = some b ∧ Chain h (h b).link l

instance Chain.decide (h : Nat → bdescr) : (p : Option Nat) → (l : List Nat) → Decidable (Chain h p l)
  | p, [] => inferInstanceAs (Decidable (p = none))
  | p, b :: l =>
    have : Decidable (Chain h (h b).link l) := Chain.decide h (h b).link l
    inferInstanceAs (Decidable (p = some b ∧ Chain h (h b).link l))

/-- The step's todo queue holds exactly the blocks `q`, in this order. -/
def QueueWF (s : GcState) (q : List Nat) : Prop :=
  Chain s.heap s.stp.todos q ∧ s.stp.todos_last = q.getLast?

/-- Publish the blocks `bs` one after the other. -/
def publish_all : List Nat → GcState → GcState
  | [], s => s
  | b :: bs, s => publish_all bs (publish b s)

/-- The results of `n` successive calls of `grab_todo_block`. -/
def grab_n : Nat → GcState → List (Option Nat)
  | 0, _ => []
  | n + 1, s => (grab_todo_block s).2 :: grab_n n (grab_todo_block s).1

/-- One operation on a step's todo queue. -/
inductive QueueOp where
  | publish (b : Nat)
  | grab
deriving DecidableEq, Repr

/-- Run a sequence of queue operations; the result is the final state, the
number of blocks inserted and the number of blocks removed (a
`grab_todo_block` that returns `NULL` removes nothing). -/
def run_ops : List QueueOp → GcState → GcState × Nat × Nat
  | [], s => (s, 0, 0)
  | QueueOp.publish b :: ops, s =>
    let r := run_ops ops (publish b s)
    (r.1, r.2.1 + 1, r.2.2)
  | QueueOp.grab :: ops, s =>
    let g := grab_todo_block s
    let r := run_ops ops g.1
    (r.1, r.2.1, r.2.2 + (if g.2.isSome then 1 else 0))

/-- No operation of the sequence publishes a block that is in the queue at that
moment, when the queue holds `q` at the start. -/
def valid_ops : List Nat → List QueueOp → Prop
  | _, [] => True
  | q, QueueOp.publish b :: ops => b ∉ q ∧ valid_ops (q ++ [b]) ops
  | q, QueueOp.grab :: ops => valid_ops q.tail ops

instance valid_ops.decide : (q : List Nat) → (ops : List QueueOp) → Decidable (valid_ops q ops)
  | _, [] => inferInstanceAs (Decidable True)
  | q, QueueOp.publish b :: ops =>
    have : Decidable (valid_ops (q ++ [b]) ops) := valid_ops.decide (q ++ [b]) ops
    inferInstanceAs (Decidable (b ∉ q ∧ valid_ops (q ++ [b]) ops))
  | q, QueueOp.grab :: ops => valid_ops.decide q.tail ops

/-! ### Concrete states used to evaluate the functions (block capacity 1000 words,
work unit 100 words, as in the scenarios of the design document) -/

/-- Capacity 1000 words, work unit 100 words, `N = 0`, `BF_EVACUATED = 1`. -/
def cfg : Config := { BLOCK_SIZE_W := 1000, WORK_UNIT_WORDS := 100, N := 0, BF_EVACUATED := 1 }

/-- Block `i` starts at word `1000 * i`, is empty and is linked to nothing. -/
def heap0 : Nat → bdescr :=
  fun i => { start := 1000 * i, free := 1000 * i, scan := 1000 * i, link := none,
             gen_no := 0, step := 0, flags := 0 }

/-- A step with an empty todo queue. -/
def stp0 : step := { gen_no := 0, todos := none, todos_last := none, n_todos := 0 }

/-- A workspace that owns nothing. -/
def ws0 : step_workspace :=
  { step := 0, scan_bd := none, todo_bd := none, todo_free := 0, todo_lim := 0,
    buffer_todo_bd := none, part_list := none, n_part_blocks := 0,
    scavd_list := none, n_scavd_blocks := 0 }

/-- No block is in use anywhere. -/
def st0 : GcState := { heap := heap0, stp := stp0, ws := ws0 }

/-- Scenario B: block 0 is the todo block with `free = 950`, `scan = 900` and
limit 960; the step's queue holds block 5; block 3 is the scan block. -/
def stB : GcState :=
  { heap := setBlock heap0 0 { heap0 0 with free := 950, scan := 900 }
    stp := { stp0 with todos := some 5, todos_last := some 5, n_todos := 1 }
    ws := { ws0 with todo_bd := some 0, todo_free := 950, todo_lim := 960, scan_bd := some 3 } }

/-- Scenario D: block 0 has `free = scan = 400`; `part_list` holds block 4 and
`scavd_list` holds block 6. -/
def stD : GcState :=
  { heap := setBlock heap0 0 { heap0 0 with free := 400, scan := 400 }
    stp := stp0
    ws := { ws0 with part_list := some 4, n_part_blocks := 1,
                     scavd_list := some 6, n_scavd_blocks := 1 } }

/-- The head of `part_list`, block 4, has exactly 30 words left. -/
def stP : GcState :=
  { heap := setBlock heap0 4 { heap0 4 with free := 4970, scan := 4970 }
    stp := stp0
    ws := { ws0 with part_list := some 4, n_part_blocks := 1 } }

/-- The part-list reuse rule of `alloc_block` as the design document words it:
the head of `part_list` is popped when its remaining capacity is at least
`size`, and otherwise a fresh block is taken and `part_list` is left alone. -/
def spec_part_reuse (P : Config) (nb size : Nat) (s : GcState) : Prop :=
  (∀ pb, s.ws.part_list = some pb →
      ((s.heap pb).start + P.BLOCK_SIZE_W : Int) - (s.heap pb).free ≥ size →
      (alloc_todo_block P nb size s).1.ws.todo_bd = some pb ∧
      (alloc_todo_block P nb size s).1.ws.part_list = (s.heap pb).link ∧
      (alloc_todo_block P nb size s).1.ws.n_part_blocks = s.ws.n_part_blocks - 1 ∧
      ((alloc_todo_block P nb size s).1.heap pb).scan = (s.heap pb).scan) ∧
  ((s.ws.part_list = none ∨ ∃ pb, s.ws.part_list = some pb ∧
      ((s.heap pb).start + P.BLOCK_SIZE_W : Int) - (s.heap pb).free < size) →
      (alloc_todo_block P nb size s).1.ws.todo_bd = some nb ∧
      (alloc_todo_block P nb size s).1.ws.part_list = s.ws.part_list)

/-- The growth condition of `grow_or_retire` as the design document words it:
the queue is non-empty or the unscanned content is less than half a work unit,
and the limit extended by `max WORK_UNIT size` still fits in the block. -/
def spec_growth_condition (P : Config) (size bd : Nat) (s : GcState) : Prop :=
  (s.stp.todos ≠ none ∨
    ((s.ws.todo_free : Int) - (s.heap bd).scan < ((P.WORK_UNIT_WORDS / 2 : Nat) : Int))) ∧
  s.ws.todo_lim + max P.WORK_UNIT_WORDS size ≤ (s.heap bd).start + P.BLOCK_SIZE_W

/-- The counters of the workspace's two local lists are the lengths of the
lists `pl` (from `part_list`) and `sl` (from `scavd_list`). -/
def Counted (s : GcState) (pl sl : List Nat) : Prop :=
  Chain s.heap s.ws.part_list pl ∧ s.ws.n_part_blocks = pl.length ∧
  Chain s.heap s.ws.scavd_list sl ∧ s.ws.n_scavd_blocks = sl.length

/-- The local lists are `pl` and `sl`, the step's queue is `q`, and the blocks
`B` held in slots together with `pl`, `sl` and `q` have no block in common and
no block twice. -/
def Owned (s : GcState) (B pl sl q : List Nat) : Prop :=
  Chain s.heap s.ws.part_list pl ∧ Chain s.heap s.ws.scavd_list sl ∧ QueueWF s q ∧
  (B ++ pl ++ sl ++ q).Nodup

/-- Every block is in at most one of: the buffer slot, the todo slot,
`part_list` (`pl`), `scavd_list` (`sl`) and the step's todo queue (`q`). -/
def OneList (s : GcState) (pl sl q : List Nat) : Prop :=
  Owned s (s.ws.buffer_todo_bd.toList ++ s.ws.todo_bd.toList) pl sl q

instance QueueWF.decide (s : GcState) (q : List Nat) : Decidable (QueueWF s q) :=
  inferInstanceAs (Decidable (Chain s.heap s.stp.todos q ∧ s.stp.todos_last = q.getLast?))

instance Counted.decide (s : GcState) (pl sl : List Nat) : Decidable (Counted s pl sl) :=
  inferInstanceAs (Decidable (Chain s.heap s.ws.part_list pl ∧ s.ws.n_part_blocks = pl.length ∧
    Chain s.heap s.ws.scavd_list sl ∧ s.ws.n_scavd_blocks = sl.length))

instance Owned.decide (s : GcState) (B pl sl q : List Nat) : Decidable (Owned s B pl sl q) :=
  inferInstanceAs (Decidable (Chain s.heap s.ws.part_list pl ∧
    Chain s.heap s.ws.scavd_list sl ∧ QueueWF s q ∧ (B ++ pl ++ sl ++ q).Nodup))

instance OneList.decide (s : GcState) (pl sl q : List Nat) : Decidable (OneList s pl sl q) :=
  inferInstanceAs (Decidable
    (Owned s (s.ws.buffer_todo_bd.toList ++ s.ws.todo_bd.toList) pl sl q))

/-- Block 0 (`free = scan = 400`) is the todo block, with no room left below its
limit; `part_list` holds block 4, `scavd_list` block 6, the queue is empty. -/
def stR : GcState :=
  { stD with ws := { stD.ws with todo_bd := some 0, todo_free := 400, todo_lim := 400 } }

/-- Scenario C: block 0 is the todo block with `free = 950`, `scan = 850` and
limit 950; the step's queue is empty; block 3 is the scan block. -/
def stC : GcState :=
  { heap := setBlock heap0 0 { heap0 0 with free := 950, scan := 850 }
    stp := stp0
    ws := { ws0 with todo_bd := some 0, todo_free := 950, todo_lim := 950, scan_bd := some 3 } }

/-- As `stR` (block 0, `free = scan = 400`, is the todo block), but block 0 is
also the scan block. -/
def stS : GcState :=
  { stR with ws := { stR.ws with scan_bd := some 0 } }

/-- The cursors of the active todo block are in order:
`start ≤ scan ≤ todo_free ≤ todo_lim ≤ start + BLOCK_SIZE_W`. -/
def TodoInv (P : Config) (s : GcState) : Prop :=
  ∃ bd, s.ws.todo_bd = some bd ∧ (s.heap bd).start ≤ (s.heap bd).scan ∧
    (s.heap bd).scan ≤ s.ws.todo_free ∧ s.ws.todo_free ≤ s.ws.todo_lim ∧
    s.ws.todo_lim ≤ (s.heap bd).start + P.BLOCK_SIZE_W

/-- The cursors of a block that is not being written are in order:
`start ≤ scan ≤ free ≤ start + BLOCK_SIZE_W`. -/
def cursor_ok (P : Config) (d : bdescr) : Prop :=
  d.start ≤ d.scan ∧ d.scan ≤ d.free ∧ d.free ≤ d.start + P.BLOCK_SIZE_W

/-- Block 1 (words 1000 to 1999) is the todo block and is empty:
`start = scan = free = 1000`, limit 1100; the queue is empty and block 3 is the
scan block. This is the state after `alloc_todo_block` took a fresh block for a
small request. -/
def stE : GcState :=
  { heap := heap0
    stp := stp0
    ws := { ws0 with todo_bd := some 1, todo_free := 1000, todo_lim := 1100, scan_bd := some 3 } }

/-- The growth condition of the comment in `todo_block_full` with an exact fit
counted as enough room: the global list is not empty or there is not much work
in the block to push, and the current object fits in the block,
`todo_free + size ≤ start + BLOCK_SIZE_W`. -/
def comment_growth_condition (P : Config) (size bd : Nat) (s : GcState) : Prop :=
  (s.stp.todos ≠ none ∨
    ((s.ws.todo_free : Int) - (s.heap bd).scan < ((P.WORK_UNIT_WORDS / 2 : Nat) : Int))) ∧
  s.ws.todo_free + size ≤ (s.heap bd).start + P.BLOCK_SIZE_W

instance comment_growth_condition.decide (P : Config) (size bd : Nat) (s : GcState) :
    Decidable (comment_growth_condition P size bd s) :=
  inferInstanceAs (Decidable ((s.stp.todos ≠ none ∨
    ((s.ws.todo_free : Int) - (s.heap bd).scan < ((P.WORK_UNIT_WORDS / 2 : Nat) : Int))) ∧
  s.ws.todo_free + size ≤ (s.heap bd).start + P.BLOCK_SIZE_W))

/-! ### Basic facts -/

@[simp]
theorem setBlock_same (h : Nat → bdescr) (b : Nat) (d : bdescr) :
    setBlock h b d b = d := by
  simp [setBlock]

theorem setBlock_other (h : Nat → bdescr) (b : Nat) (d : bdescr) (i : Nat) (hi : i ≠ b) :
    setBlock h b d i = h i := by
  simp [setBlock, hi]

theorem int_of_nat_eq (size : Nat) (h : size < 2 ^ 31) : int_of_nat size = (size : Int) := by
  have h1 : size % 2 ^ 32 = size := Nat.mod_eq_of_lt (by omega)
  unfold int_of_nat
  rw [h1, if_pos h]

theorem stg_min_eq (a b : Nat) : stg_min a b = min a b := by
  unfold stg_min; split <;> omega

theorem stg_max_eq (a b : Nat) : stg_max a b = max a b := by
  unfold stg_max; split <;> omega

theorem part_block_some (P : Config) (size : Nat) (s : GcState) (pb : Nat)
    (h : part_block P size s = some pb) :
    s.ws.part_list = some pb ∧
      ((s.heap pb).start + P.BLOCK_SIZE_W : Int) - (s.heap pb).free > int_of_nat size := by
  unfold part_block at h
  split at h
  · rename_i q hq
    split at h
    · rename_i hc
      simp only [Option.some.injEq] at h
      subst h
      exact ⟨hq, hc⟩
    · simp at h
  · simp at h

/-- What `install_todo_block` leaves in the workspace. -/
theorem install_todo_block_room (P : Config) (size bd : Nat) (s : GcState)
    (hroom : (s.heap bd).free + size ≤ (s.heap bd).start + P.BLOCK_SIZE_W) :
    (install_todo_block P size bd s).1.ws.todo_bd = some bd ∧
    (install_todo_block P size bd s).2 = ((install_todo_block P size bd s).1.heap bd).free ∧
    (install_todo_block P size bd s).1.ws.todo_free =
      ((install_todo_block P size bd s).1.heap bd).free ∧
    (install_todo_block P size bd s).1.ws.todo_lim =
      min (((install_todo_block P size bd s).1.heap bd).start + P.BLOCK_SIZE_W)
          (((install_todo_block P size bd s).1.heap bd).free + max P.WORK_UNIT_WORDS size) ∧
    (install_todo_block P size bd s).1.ws.todo_free + size ≤
      (install_todo_block P size bd s).1.ws.todo_lim ∧
    (install_todo_block P size bd s).1.ws.todo_lim ≤
      ((install_todo_block P size bd s).1.heap bd).start + P.BLOCK_SIZE_W := by
  simp only [install_todo_block, setBlock_same, stg_min_eq, stg_max_eq]
  refine ⟨trivial, trivial, trivial, trivial, ?_, ?_⟩ <;> omega

/-- The postcondition of `alloc_todo_block`, for a request that fits in a block. -/
theorem alloc_todo_block_spec (P : Config) (s : GcState) (nb size : Nat)
    (hsize : size ≤ P.BLOCK_SIZE_W) (hB : P.BLOCK_SIZE_W < 2 ^ 31)
    (hfresh : (s.heap nb).free = (s.heap nb).start) :
    ∃ bd, (alloc_todo_block P nb size s).1.ws.todo_bd = some bd ∧
      (alloc_todo_block P nb size s).2 = ((alloc_todo_block P nb size s).1.heap bd).free ∧
      (alloc_todo_block P nb size s).1.ws.todo_free =
        ((alloc_todo_block P nb size s).1.heap bd).free ∧
      (alloc_todo_block P nb size s).1.ws.todo_lim =
        min (((alloc_todo_block P nb size s).1.heap bd).start + P.BLOCK_SIZE_W)
            (((alloc_todo_block P nb size s).1.heap bd).free + max P.WORK_UNIT_WORDS size) ∧
      (alloc_todo_block P nb size s).1.ws.todo_free + size ≤
        (alloc_todo_block P nb size s).1.ws.todo_lim ∧
      (alloc_todo_block P nb size s).1.ws.todo_lim ≤
        ((alloc_todo_block P nb size s).1.heap bd).start + P.BLOCK_SIZE_W := by
  unfold alloc_todo_block
  cases hpb : part_block P size s with
  | some pb =>
    obtain ⟨_, hc⟩ := part_block_some P size s pb hpb
    rw [int_of_nat_eq size (by omega)] at hc
    refine ⟨pb, install_todo_block_room P size pb (take_part_block pb s) ?_⟩
    simp only [take_part_block]
    omega
  | none =>
    refine ⟨nb, install_todo_block_room P size nb (init_fresh_block P nb s) ?_⟩
    simp only [init_fresh_block, setBlock_same]
    omega

theorem push_scanned_block_free (P : Config) (bd : Nat) (s : GcState) (i : Nat) :
    ((push_scanned_block P bd s).heap i).free = (s.heap i).free ∧
    ((push_scanned_block P bd s).heap i).start = (s.heap i).start ∧
    ((push_scanned_block P bd s).heap i).scan = (s.heap i).scan := by
  unfold push_scanned_block
  split <;> by_cases hi : i = bd <;> simp [setBlock, hi]

theorem publish_free (bd : Nat) (s : GcState) (i : Nat) :
    ((publish bd s).heap i).free = (s.heap i).free ∧
    ((publish bd s).heap i).start = (s.heap i).start ∧
    ((publish bd s).heap i).scan = (s.heap i).scan := by
  unfold publish
  split
  · simp
  · rename_i l _
    by_cases hi : i = l <;> simp [setBlock, hi]

theorem retire_block_free (P : Config) (bd : Nat) (s : GcState) (i : Nat) :
    ((retire_block P bd s).heap i).free = (s.heap i).free ∧
    ((retire_block P bd s).heap i).start = (s.heap i).start ∧
    ((retire_block P bd s).heap i).scan = (s.heap i).scan := by
  unfold retire_block
  split
  · split
    · exact push_scanned_block_free P bd s i
    · exact publish_free bd s i
  · exact ⟨rfl, rfl, rfl⟩

theorem growth_path_true (P : Config) (size bd : Nat) (s : GcState) :
    growth_path P size bd s = true ↔
      (s.stp.todos ≠ none ∨
        ((s.heap bd).free : Int) - (s.heap bd).scan < ((P.WORK_UNIT_WORDS / 2 : Nat) : Int)) ∧
      (s.heap bd).free + size < (s.heap bd).start + P.BLOCK_SIZE_W := by
  unfold growth_path
  split
  · rename_i h1
    split
    · rename_i h2
      simp only [true_iff]
      exact ⟨h1, h2⟩
    · rename_i h2
      constructor
      · intro h; cases h
      · intro h; exact absurd h.2 h2
  · rename_i h1
    constructor
    · intro h; cases h
    · intro h; exact absurd h.1 h1

/-- Whatever path `todo_block_full` takes, the cursor it returns has room for
`size` words below the limit. -/
theorem room_after_todo_block_full (P : Config) (s : GcState) (nb size bd : Nat)
    (hbd : s.ws.todo_bd = some bd)
    (hfl : s.ws.todo_free ≤ s.ws.todo_lim)
    (hsize : size ≤ P.BLOCK_SIZE_W) (hB : P.BLOCK_SIZE_W < 2 ^ 31)
    (hnb : nb ≠ bd) (hfresh : (s.heap nb).free = (s.heap nb).start) :
    ∃ s' p, todo_block_full P nb size s = some (s', p) ∧ p = s'.ws.todo_free ∧
      s'.ws.todo_free + size ≤ s'.ws.todo_lim := by
  unfold todo_block_full
  rw [hbd]
  simp only
  by_cases hg : growth_path P size bd (sync_free bd s) = true
  · rw [if_pos hg]
    refine ⟨_, _, rfl, rfl, ?_⟩
    rw [growth_path_true] at hg
    have h2 := hg.2
    simp only [sync_free, setBlock_same] at h2
    simp only [grow_limit, sync_free, setBlock_same, stg_min_eq, stg_max_eq]
    omega
  · rw [if_neg hg]
    refine ⟨_, _, rfl, rfl, ?_⟩
    simp only [replace_block]
    have hf := retire_block_free P bd (sync_free bd s) nb
    have hs : ((sync_free bd s).heap nb) = s.heap nb := by
      simp [sync_free, setBlock_other _ _ _ _ hnb]
    rw [hs] at hf
    obtain ⟨b2, _, _, _, _, h5, _⟩ := alloc_todo_block_spec P
      { retire_block P bd (sync_free bd s) with
        ws := { (retire_block P bd (sync_free bd s)).ws with
                todo_bd := none, todo_free := 0, todo_lim := 0 } } nb size hsize hB
      (by simp only; rw [hf.1, hf.2.1]; exact hfresh)
    exact h5

/-- C2. Postcondition of `alloc_todo_block`: for a request of at most one block
and a fresh block with `free = start`, the block `bd` that becomes `ws->todo_bd`
has `todo_lim = min (bd.start + BLOCK_SIZE_W) (bd.free + max WORK_UNIT_WORDS size)`,
there are at least `size` words between `todo_free` and `todo_lim`, the limit
does not pass the end of the block, and the returned cursor is `bd.free`. -/
theorem alloc_todo_block_post (P : Config) (s : GcState) (nb size : Nat)
    (hsize : size ≤ P.BLOCK_SIZE_W) (hB : P.BLOCK_SIZE_W < 2 ^ 31)
    (hfresh : (s.heap nb).free = (s.heap nb).start) :
    ∃ bd, (alloc_todo_block P nb size s).1.ws.todo_bd = some bd ∧
      (alloc_todo_block P nb size s).2 = ((alloc_todo_block P nb size s).1.heap bd).free ∧
      (alloc_todo_block P nb size s).1.ws.todo_free =
        ((alloc_todo_block P nb size s).1.heap bd).free ∧
      (alloc_todo_block P nb size s).1.ws.todo_lim =
        min (((alloc_todo_block P nb size s).1.heap bd).start + P.BLOCK_SIZE_W)
            (((alloc_todo_block P nb size s).1.heap bd).free + max P.WORK_UNIT_WORDS size) ∧
      (alloc_todo_block P nb size s).1.ws.todo_free + size ≤
        (alloc_todo_block P nb size s).1.ws.todo_lim ∧
      (alloc_todo_block P nb size s).1.ws.todo_lim ≤
        ((alloc_todo_block P nb size s).1.heap bd).start + P.BLOCK_SIZE_W :=
  alloc_todo_block_spec P s nb size hsize hB hfresh

/-- C1. `todo_block_full` never returns with less than `size` words of room: when
the todo block satisfies `start ≤ scan ≤ todo_free ≤ todo_lim ≤ start + BLOCK_SIZE_W`,
the request is at most one block and the allocator's block is fresh
(`free = start`, not the current todo block), the call returns, the cursor it
returns is `ws->todo_free`, and `todo_free + size ≤ todo_lim`, on the growth
path and on every retirement path. -/
theorem todo_block_full_room (P : Config) (s : GcState) (nb size bd : Nat)
    (hbd : s.ws.todo_bd = some bd)
    (hinv : (s.heap bd).start ≤ (s.heap bd).scan ∧ (s.heap bd).scan ≤ s.ws.todo_free ∧
      s.ws.todo_free ≤ s.ws.todo_lim ∧ s.ws.todo_lim ≤ (s.heap bd).start + P.BLOCK_SIZE_W)
    (hsize : size ≤ P.BLOCK_SIZE_W) (hB : P.BLOCK_SIZE_W < 2 ^ 31)
    (hnb : nb ≠ bd) (hfresh : (s.heap nb).free = (s.heap nb).start) :
    ∃ s' p, todo_block_full P nb size s = some (s', p) ∧ p = s'.ws.todo_free ∧
      s'.ws.todo_free + size ≤ s'.ws.todo_lim :=
  room_after_todo_block_full P s nb size bd hbd hinv.2.2.1 hsize hB hnb hfresh

/-- Witness of C2: in the state of Scenario B a request of 30 words with fresh
block 7 installs a todo block with at least 30 words of room. -/
theorem alloc_todo_block_post_witness :
    (30 ≤ cfg.BLOCK_SIZE_W ∧ cfg.BLOCK_SIZE_W < 2 ^ 31 ∧ (stB.heap 7).free = (stB.heap 7).start) ∧
    ∃ bd, (alloc_todo_block cfg 7 30 stB).1.ws.todo_bd = some bd ∧
      (alloc_todo_block cfg 7 30 stB).1.ws.todo_free + 30 ≤
        (alloc_todo_block cfg 7 30 stB).1.ws.todo_lim :=
  ⟨⟨by decide, by decide, by decide⟩,
   (alloc_todo_block_post cfg stB 7 30 (by decide) (by decide) (by decide)).imp
     fun _ h => ⟨h.1, h.2.2.2.2.1⟩⟩

/-- Witness of C1: the state of Scenario B with a request of 30 words. -/
theorem todo_block_full_room_witness :
    (stB.ws.todo_bd = some 0 ∧
      ((stB.heap 0).start ≤ (stB.heap 0).scan ∧ (stB.heap 0).scan ≤ stB.ws.todo_free ∧
        stB.ws.todo_free ≤ stB.ws.todo_lim ∧
        stB.ws.todo_lim ≤ (stB.heap 0).start + cfg.BLOCK_SIZE_W) ∧
      30 ≤ cfg.BLOCK_SIZE_W ∧ (stB.heap 7).free = (stB.heap 7).start) ∧
    ∃ s' p, todo_block_full cfg 7 30 stB = some (s', p) ∧ p = s'.ws.todo_free ∧
      s'.ws.todo_free + 30 ≤ s'.ws.todo_lim :=
  ⟨⟨by decide, by decide, by decide, by decide⟩,
   todo_block_full_room cfg stB 7 30 0 (by decide) (by decide) (by decide) (by decide)
     (by decide) (by decide)⟩

/-! ### Chains of descriptors -/

theorem Chain_congr (h h' : Nat → bdescr) :
    ∀ (l : List Nat) (p : Option Nat), (∀ i ∈ l, (h' i).link = (h i).link) →
      (Chain h' p l ↔ Chain h p l)
  | [], _, _ => Iff.rfl
  | b :: l, p, hl => by
    simp only [Chain]
    rw [hl b (List.mem_cons_self _ _),
      Chain_congr h h' l _ (fun i hi => hl i (List.mem_cons_of_mem _ hi))]

theorem Chain_setBlock (h : Nat → bdescr) (b : Nat) (d : bdescr) (l : List Nat)
    (p : Option Nat) (hb : b ∉ l) : Chain (setBlock h b d) p l ↔ Chain h p l := by
  apply Chain_congr
  intro i hi
  have : i ≠ b := fun e => hb (e ▸ hi)
  rw [setBlock_other _ _ _ _ this]

theorem Chain_unique (h : Nat → bdescr) :
    ∀ (l1 l2 : List Nat) (p : Option Nat), Chain h p l1 → Chain h p l2 → l1 = l2
  | [], [], _, _, _ => rfl
  | [], b :: l2, p, h1, h2 => by
    simp only [Chain] at h1 h2
    rw [h1] at h2
    cases h2.1
  | a :: l1, [], p, h1, h2 => by
    simp only [Chain] at h1 h2
    rw [h2] at h1
    cases h1.1
  | a :: l1, b :: l2, p, h1, h2 => by
    simp only [Chain] at h1 h2
    have hab : a = b := by
      have := h1.1.symm.trans h2.1
      exact Option.some.inj this
    subst hab
    rw [Chain_unique h l1 l2 _ h1.2 h2.2]

theorem Chain_suffix (h : Nat → bdescr) (b : Nat) (v : List Nat) :
    ∀ (u : List Nat) (p : Option Nat), Chain h p (u ++ b :: v) → Chain h (h b).link v
  | [], _, hc => by
    simp only [List.nil_append, Chain] at hc
    exact hc.2
  | a :: u, _, hc => by
    simp only [List.cons_append, Chain] at hc
    exact Chain_suffix h b v u _ hc.2

/-- A chain that ends never visits a descriptor twice. -/
theorem Chain_nodup (h : Nat → bdescr) :
    ∀ (l : List Nat) (p : Option Nat), Chain h p l → l.Nodup
  | [], _, _ => List.nodup_nil
  | b :: t, p, hc => by
    simp only [Chain] at hc
    refine List.nodup_cons.mpr ⟨?_, Chain_nodup h t _ hc.2⟩
    intro hmem
    obtain ⟨u, v, huv⟩ := List.append_of_mem hmem
    have h1 : Chain h (h b).link (u ++ b :: v) := huv ▸ hc.2
    have h2 := Chain_suffix h b v u _ h1
    have h3 := Chain_unique h _ _ _ h1 h2
    have h4 := congrArg List.length h3
    simp at h4
    omega

/-- Linking the last descriptor of a chain to a descriptor outside of it, whose
own link is empty, extends the chain by that descriptor. -/
theorem Chain_snoc (h : Nat → bdescr) (b : Nat) (hb : (h b).link = none) :
    ∀ (q : List Nat) (p : Option Nat) (l : Nat), Chain h p q → q.getLast? = some l → b ∉ q →
      Chain (setBlock h l { h l with link := some b }) p (q ++ [b])
  | [], _, _, _, hl, _ => by simp at hl
  | [a], p, l, hc, hl, hnb => by
    simp only [List.getLast?_singleton, Option.some.injEq] at hl
    subst hl
    simp only [Chain] at hc
    have hba : b ≠ a := fun e => hnb (by simp [e])
    simp only [List.singleton_append, Chain, setBlock_same, setBlock_other _ _ _ _ hba, hb, hc.1,
      and_self]
  | a :: a' :: r, p, l, hc, hl, hnb => by
    have hnd := Chain_nodup h _ _ hc
    simp only [Chain] at hc
    have hl' : (a' :: r).getLast? = some l := by
      simpa [List.getLast?_cons_cons] using hl
    have hlm : l ∈ a' :: r := List.mem_of_getLast?_eq_some hl'
    have hal : a ≠ l := fun e => (List.nodup_cons.mp hnd).1 (e ▸ hlm)
    have hnb' : b ∉ a' :: r := fun hm => hnb (List.mem_cons_of_mem _ hm)
    have ih := Chain_snoc h b hb (a' :: r) (h a).link l hc.2 hl' hnb'
    simp only [List.cons_append, Chain, setBlock_other _ _ _ _ hal]
    simp only [List.cons_append, Chain] at ih
    exact ⟨hc.1, ih⟩

/-! ### The todo queue -/

theorem grab_empty (s : GcState) (hbuf : s.ws.buffer_todo_bd = none)
    (hq : s.stp.todos = none) : grab_todo_block s = (s, none) := by
  unfold grab_todo_block
  rw [hbuf]
  simp only
  rw [hq]

theorem grab_head (s : GcState) (a : Nat) (hbuf : s.ws.buffer_todo_bd = none)
    (hq : s.stp.todos = some a) :
    grab_todo_block s =
      ({ s with
          stp := { s.stp with
            todos_last := if s.stp.todos = s.stp.todos_last then none else s.stp.todos_last
            todos := (s.heap a).link
            n_todos := s.stp.n_todos - 1 }
          heap := setBlock s.heap a { s.heap a with link := none } },
       some a) := by
  unfold grab_todo_block
  rw [hbuf]
  simp only
  rw [hq]

/-- Taking the head of a well-formed queue. -/
theorem grab_queue (s : GcState) (a : Nat) (q : List Nat)
    (hbuf : s.ws.buffer_todo_bd = none) (hq : QueueWF s (a :: q)) :
    (grab_todo_block s).2 = some a ∧ QueueWF (grab_todo_block s).1 q ∧
      (grab_todo_block s).1.stp.n_todos = s.stp.n_todos - 1 ∧
      (grab_todo_block s).1.ws = s.ws ∧
      (grab_todo_block s).1.heap = setBlock s.heap a { s.heap a with link := none } := by
  obtain ⟨hc, hl⟩ := hq
  have hnd := Chain_nodup _ _ _ hc
  simp only [Chain] at hc
  rw [grab_head s a hbuf hc.1]
  refine ⟨rfl, ⟨?_, ?_⟩, rfl, rfl, rfl⟩
  · simp only
    exact (Chain_setBlock _ _ _ _ _ (List.nodup_cons.mp hnd).1).mpr hc.2
  · simp only
    rw [hl, hc.1]
    cases q with
    | nil => simp
    | cons a' r =>
      have hm : (a' :: r).getLast? = some ((a' :: r).getLast (by simp)) :=
        List.getLast?_eq_getLast _ _
      rw [List.getLast?_cons_cons, hm]
      have hmem : (a' :: r).getLast (by simp) ∈ a' :: r := List.getLast_mem _
      have hne : a ≠ (a' :: r).getLast (by simp) :=
        fun e => (List.nodup_cons.mp hnd).1 (e ▸ hmem)
      simp [hne]

/-- Appending a block that is not in the queue and has an empty link. -/
theorem publish_queue (s : GcState) (b : Nat) (q : List Nat) (hq : QueueWF s q)
    (hb : b ∉ q) (hl : (s.heap b).link = none) :
    QueueWF (publish b s) (q ++ [b]) ∧
      (publish b s).stp.n_todos = s.stp.n_todos + 1 ∧
      (publish b s).ws = s.ws ∧
      (∀ i, i ∉ q → (publish b s).heap i = s.heap i) := by
  obtain ⟨hc, hlast⟩ := hq
  unfold publish
  cases q with
  | nil =>
    simp only [List.getLast?_nil] at hlast
    rw [hlast]
    simp only [Chain] at hc
    refine ⟨⟨?_, ?_⟩, rfl, rfl, fun _ _ => rfl⟩
    · simp [Chain, hl]
    · simp
  | cons a r =>
    have hm : (a :: r).getLast? = some ((a :: r).getLast (by simp)) :=
      List.getLast?_eq_getLast _ _
    rw [hlast, hm]
    refine ⟨⟨?_, ?_⟩, rfl, rfl, ?_⟩
    · exact Chain_snoc s.heap b hl (a :: r) _ _ hc hm hb
    · show some b = ((a :: r) ++ [b]).getLast?
      rw [List.getLast?_append]
      simp
    · intro i hi
      have : i ≠ (a :: r).getLast (by simp) := fun e => hi (e ▸ List.getLast_mem _)
      simp only [setBlock_other _ _ _ _ this]

theorem grab_n_queue :
    ∀ (q : List Nat) (s : GcState), s.ws.buffer_todo_bd = none → QueueWF s q →
      grab_n (q.length + 1) s = q.map some ++ [none]
  | [], s, hbuf, hq => by
    have h0 : s.stp.todos = none := hq.1
    simp [grab_n, grab_empty s hbuf h0]
  | a :: q, s, hbuf, hq => by
    obtain ⟨h1, h2, _, h4, _⟩ := grab_queue s a q hbuf hq
    have ih := grab_n_queue q (grab_todo_block s).1 (by rw [h4]; exact hbuf) h2
    simp only [List.length_cons, List.map_cons, List.cons_append]
    rw [grab_n, h1, ih]

theorem publish_all_queue :
    ∀ (bs : List Nat) (s : GcState) (q : List Nat), QueueWF s q → (q ++ bs).Nodup →
      (∀ b ∈ bs, (s.heap b).link = none) →
      QueueWF (publish_all bs s) (q ++ bs) ∧ (publish_all bs s).ws = s.ws
  | [], s, q, hq, _, _ => by
    simp only [publish_all, List.append_nil]
    exact ⟨hq, trivial⟩
  | b :: bs, s, q, hq, hnd, hl => by
    have hbq : b ∉ q := by
      intro hm
      have := (List.nodup_append.mp hnd).2.2
      exact this hm (List.mem_cons_self _ _)
    obtain ⟨h1, _, h3, h4⟩ := publish_queue s b q hq hbq (hl b (List.mem_cons_self _ _))
    have hnd' : ((q ++ [b]) ++ bs).Nodup := by simpa using hnd
    have hl' : ∀ b' ∈ bs, ((publish b s).heap b').link = none := by
      intro b' hb'
      have hnq : b' ∉ q := by
        intro hm
        exact (List.nodup_append.mp hnd).2.2 hm (List.mem_cons_of_mem _ hb')
      rw [h4 b' hnq]
      exact hl b' (List.mem_cons_of_mem _ hb')
    obtain ⟨ih1, ih2⟩ := publish_all_queue bs (publish b s) (q ++ [b]) h1 hnd' hl'
    simp only [publish_all]
    refine ⟨?_, ih2.trans h3⟩
    simpa using ih1

theorem run_ops_conservation :
    ∀ (ops : List QueueOp) (s : GcState) (q0 : List Nat), QueueWF s q0 →
      s.stp.n_todos = q0.length → s.ws.buffer_todo_bd = none → valid_ops q0 ops →
      (∀ b, QueueOp.publish b ∈ ops → b ∉ q0 → (s.heap b).link = none) →
      ∃ q, QueueWF (run_ops ops s).1 q ∧
        (run_ops ops s).2.2 + q.length = (run_ops ops s).2.1 + q0.length ∧
        (run_ops ops s).1.stp.n_todos = q.length
  | [], s, q0, hq, hn, _, _, _ => ⟨q0, hq, by simp [run_ops], hn⟩
  | QueueOp.publish b :: ops, s, q0, hq, hn, hbuf, hv, hl => by
    simp only [valid_ops] at hv
    obtain ⟨h1, h2, h3, h4⟩ :=
      publish_queue s b q0 hq hv.1 (hl b (List.mem_cons_self _ _) hv.1)
    have hl' : ∀ b', QueueOp.publish b' ∈ ops → b' ∉ q0 ++ [b] →
        ((publish b s).heap b').link = none := by
      intro b' hb' hn'
      have hnq : b' ∉ q0 := fun hm => hn' (List.mem_append_left _ hm)
      rw [h4 b' hnq]
      exact hl b' (List.mem_cons_of_mem _ hb') hnq
    obtain ⟨q, i1, i2, i3⟩ := run_ops_conservation ops (publish b s) (q0 ++ [b]) h1
      (by rw [h2, hn]; simp) (by rw [h3]; exact hbuf) hv.2 hl'
    refine ⟨q, i1, ?_, i3⟩
    simp only [run_ops]
    simp only [List.length_append, List.length_singleton] at i2
    omega
  | QueueOp.grab :: ops, s, q0, hq, hn, hbuf, hv, hl => by
    simp only [valid_ops] at hv
    cases q0 with
    | nil =>
      have h0 : s.stp.todos = none := hq.1
      have hg := grab_empty s hbuf h0
      obtain ⟨q, i1, i2, i3⟩ := run_ops_conservation ops s [] hq hn hbuf hv
        (fun b hb hn' => hl b (List.mem_cons_of_mem _ hb) hn')
      refine ⟨q, ?_, ?_, ?_⟩
      · simp only [run_ops, hg]; exact i1
      · simp only [run_ops, hg]
        simpa using i2
      · simp only [run_ops, hg]; exact i3
    | cons a q1 =>
      obtain ⟨g1, g2, g3, g4, g5⟩ := grab_queue s a q1 hbuf hq
      have hl' : ∀ b', QueueOp.publish b' ∈ ops → b' ∉ q1 →
          ((grab_todo_block s).1.heap b').link = none := by
        intro b' hb' hn'
        rw [g5]
        by_cases hba : b' = a
        · subst hba; simp
        · rw [setBlock_other _ _ _ _ hba]
          apply hl b' (List.mem_cons_of_mem _ hb')
          simp [hba, hn']
      obtain ⟨q, i1, i2, i3⟩ := run_ops_conservation ops (grab_todo_block s).1 q1 g2
        (by rw [g3, hn]; simp) (by rw [g4]; exact hbuf) hv hl'
      refine ⟨q, i1, ?_, i3⟩
      simp only [run_ops, g1, Option.isSome_some, if_true]
      simp only [List.length_cons]
      omega

/-- C3. The per-step todo queue is FIFO: when pairwise distinct blocks with an
empty link are published, in the order `bs`, to an empty queue, the next
`bs.length` calls of `grab_todo_block` from a workspace with an empty buffer
return them in that order, and the call after the last one returns `NULL`. -/
theorem todo_queue_fifo (s : GcState) (bs : List Nat)
    (hempty : s.stp.todos = none ∧ s.stp.todos_last = none)
    (hbuf : s.ws.buffer_todo_bd = none) (hnd : bs.Nodup)
    (hl : ∀ b ∈ bs, (s.heap b).link = none) :
    grab_n (bs.length + 1) (publish_all bs s) = bs.map some ++ [none] := by
  have hq : QueueWF s [] := ⟨hempty.1, by simpa using hempty.2⟩
  obtain ⟨h1, h2⟩ := publish_all_queue bs s [] hq (by simpa using hnd) hl
  simp only [List.nil_append] at h1
  exact grab_n_queue bs _ (by rw [h2]; exact hbuf) h1

/-- Witness of C3 (Scenario A): blocks 1, 2, 3 are published in this order and
four calls of `grab_todo_block` return 1, 2, 3 and `NULL`. -/
theorem todo_queue_fifo_witness :
    grab_n 4 (publish_all [1, 2, 3] st0) = [some 1, some 2, some 3, none] :=
  todo_queue_fifo st0 [1, 2, 3] (by decide) (by decide) (by decide) (by decide)

/-- C5. Queue conservation: after any sequence of publish and `grab_todo_block`
operations on an empty queue (buffer empty, every published block outside the
queue at that moment and with an empty link), the blocks removed are the
blocks inserted minus the blocks resident in the queue, and `n_todos` is the
number of resident blocks, the length of the chain from `todos`. -/
theorem queue_conservation (s : GcState) (ops : List QueueOp)
    (hempty : s.stp.todos = none ∧ s.stp.todos_last = none ∧ s.stp.n_todos = 0)
    (hbuf : s.ws.buffer_todo_bd = none) (hv : valid_ops [] ops)
    (hl : ∀ b, QueueOp.publish b ∈ ops → (s.heap b).link = none) :
    ∃ q, Chain (run_ops ops s).1.heap (run_ops ops s).1.stp.todos q ∧
      (run_ops ops s).2.2 + q.length = (run_ops ops s).2.1 ∧
      (run_ops ops s).2.2 = (run_ops ops s).2.1 - q.length ∧
      (run_ops ops s).1.stp.n_todos = q.length := by
  have hq : QueueWF s [] := ⟨hempty.1, by simpa using hempty.2.1⟩
  obtain ⟨q, h1, h2, h3⟩ := run_ops_conservation ops s [] hq (by simpa using hempty.2.2) hbuf hv
    (fun b hb _ => hl b hb)
  simp only [List.length_nil, Nat.add_zero] at h2
  exact ⟨q, h1.1, h2, by omega, h3⟩

/-- Witness of C5: publish 1, publish 2, grab, grab, grab (the queue is empty by
then), publish 1 again, publish 3. -/
theorem queue_conservation_witness :
    ∃ q, Chain (run_ops [QueueOp.publish 1, QueueOp.publish 2, QueueOp.grab, QueueOp.grab,
        QueueOp.grab, QueueOp.publish 1, QueueOp.publish 3] st0).1.heap
      (run_ops [QueueOp.publish 1, QueueOp.publish 2, QueueOp.grab, QueueOp.grab,
        QueueOp.grab, QueueOp.publish 1, QueueOp.publish 3] st0).1.stp.todos q ∧
      (run_ops [QueueOp.publish 1, QueueOp.publish 2, QueueOp.grab, QueueOp.grab,
        QueueOp.grab, QueueOp.publish 1, QueueOp.publish 3] st0).2.2 + q.length =
      (run_ops [QueueOp.publish 1, QueueOp.publish 2, QueueOp.grab, QueueOp.grab,
        QueueOp.grab, QueueOp.publish 1, QueueOp.publish 3] st0).2.1 ∧
      (run_ops [QueueOp.publish 1, QueueOp.publish 2, QueueOp.grab, QueueOp.grab,
        QueueOp.grab, QueueOp.publish 1, QueueOp.publish 3] st0).2.2 =
      (run_ops [QueueOp.publish 1, QueueOp.publish 2, QueueOp.grab, QueueOp.grab,
        QueueOp.grab, QueueOp.publish 1, QueueOp.publish 3] st0).2.1 - q.length ∧
      (run_ops [QueueOp.publish 1, QueueOp.publish 2, QueueOp.grab, QueueOp.grab,
        QueueOp.grab, QueueOp.publish 1, QueueOp.publish 3] st0).1.stp.n_todos = q.length :=
  queue_conservation st0 _ (by decide) (by decide) (by decide)
    (by intro b _; rfl)

/-! ### Classification, reuse and growth -/

/-- C6. `push_scanned_block` classification: a fully scanned block with more than
`WORK_UNIT_WORDS` words left becomes the head of `part_list` (its link is the
old head, the count grows by one) and `scavd_list` is unchanged; with
`WORK_UNIT_WORDS` words or fewer left it becomes the head of `scavd_list` and
`part_list` is unchanged. -/
theorem push_scanned_block_classifies (P : Config) (bd : Nat) (s : GcState)
    (hscan : (s.heap bd).scan = (s.heap bd).free) (hlink : (s.heap bd).link = none) :
    (((s.heap bd).start + P.BLOCK_SIZE_W : Int) - (s.heap bd).free > P.WORK_UNIT_WORDS →
      (push_scanned_block P bd s).ws.part_list = some bd ∧
      ((push_scanned_block P bd s).heap bd).link = s.ws.part_list ∧
      (push_scanned_block P bd s).ws.n_part_blocks = s.ws.n_part_blocks + 1 ∧
      (push_scanned_block P bd s).ws.scavd_list = s.ws.scavd_list ∧
      (push_scanned_block P bd s).ws.n_scavd_blocks = s.ws.n_scavd_blocks ∧
      (∀ pl, Chain s.heap s.ws.part_list pl → bd ∉ pl →
        Chain (push_scanned_block P bd s).heap (push_scanned_block P bd s).ws.part_list
          (bd :: pl)) ∧
      (∀ sl, Chain s.heap s.ws.scavd_list sl → bd ∉ sl →
        Chain (push_scanned_block P bd s).heap (push_scanned_block P bd s).ws.scavd_list sl)) ∧
    (((s.heap bd).start + P.BLOCK_SIZE_W : Int) - (s.heap bd).free ≤ P.WORK_UNIT_WORDS →
      (push_scanned_block P bd s).ws.scavd_list = some bd ∧
      ((push_scanned_block P bd s).heap bd).link = s.ws.scavd_list ∧
      (push_scanned_block P bd s).ws.n_scavd_blocks = s.ws.n_scavd_blocks + 1 ∧
      (push_scanned_block P bd s).ws.part_list = s.ws.part_list ∧
      (push_scanned_block P bd s).ws.n_part_blocks = s.ws.n_part_blocks ∧
      (∀ sl, Chain s.heap s.ws.scavd_list sl → bd ∉ sl →
        Chain (push_scanned_block P bd s).heap (push_scanned_block P bd s).ws.scavd_list
          (bd :: sl)) ∧
      (∀ pl, Chain s.heap s.ws.part_list pl → bd ∉ pl →
        Chain (push_scanned_block P bd s).heap (push_scanned_block P bd s).ws.part_list pl)) := by
  have _ := hscan
  have _ := hlink
  constructor
  · intro hc
    unfold push_scanned_block
    rw [if_pos hc]
    refine ⟨rfl, by simp, rfl, rfl, rfl, ?_, ?_⟩
    · intro pl hpl hn
      simp only [Chain, setBlock_same, true_and]
      exact (Chain_setBlock _ _ _ _ _ hn).mpr hpl
    · intro sl hsl hn
      exact (Chain_setBlock _ _ _ _ _ hn).mpr hsl
  · intro hc
    unfold push_scanned_block
    rw [if_neg (not_lt.mpr hc)]
    refine ⟨rfl, by simp, rfl, rfl, rfl, ?_, ?_⟩
    · intro sl hsl hn
      simp only [Chain, setBlock_same, true_and]
      exact (Chain_setBlock _ _ _ _ _ hn).mpr hsl
    · intro pl hpl hn
      exact (Chain_setBlock _ _ _ _ _ hn).mpr hpl

/-- Witness of C6 (Scenario D): capacity 1000, work unit 100, `free = scan = 400`:
the block goes to the head of `part_list`, in front of block 4. -/
theorem push_scanned_block_classifies_witness :
    (push_scanned_block cfg 0 stD).ws.part_list = some 0 ∧
    ((push_scanned_block cfg 0 stD).heap 0).link = some 4 ∧
    (push_scanned_block cfg 0 stD).ws.n_part_blocks = 2 ∧
    (push_scanned_block cfg 0 stD).ws.scavd_list = some 6 ∧
    Chain (push_scanned_block cfg 0 stD).heap (push_scanned_block cfg 0 stD).ws.part_list
      [0, 4] :=
  have h := (push_scanned_block_classifies cfg 0 stD (by decide) (by decide)).1 (by decide)
  ⟨h.1, h.2.1, h.2.2.1, h.2.2.2.1, h.2.2.2.2.2.1 [4] (by decide) (by decide)⟩

/-- Counterexample to C8 as stated: the head of `part_list` has exactly 30 words
left and 30 words are requested; the block is not popped, block 7 from the
allocator becomes the todo block and `part_list` keeps block 4. -/
theorem alloc_todo_block_exact_fit :
    stP.ws.part_list = some 4 ∧
    ((stP.heap 4).start + cfg.BLOCK_SIZE_W : Int) - (stP.heap 4).free = 30 ∧
    (alloc_todo_block cfg 7 30 stP).1.ws.todo_bd = some 7 ∧
    (alloc_todo_block cfg 7 30 stP).1.ws.part_list = some 4 ∧
    (alloc_todo_block cfg 7 30 stP).1.ws.n_part_blocks = 1 ∧
    ¬ spec_part_reuse cfg 7 30 stP := by
  refine ⟨by decide, by decide, by decide, by decide, by decide, ?_⟩
  intro h
  have h1 := (h.1 4 (by decide) (by decide)).1
  revert h1
  decide

/-- C8, amended. `alloc_todo_block` pops the head of `part_list` exactly when
there is one and its remaining capacity is strictly greater than `(int)size`:
then that block becomes the todo block, `n_part_blocks` is decremented, its scan
pointer is unchanged and no other descriptor is touched (the allocator is not
called); otherwise the allocator's block becomes the todo block and
`part_list` and its count are unchanged. -/
theorem alloc_todo_block_reuse (P : Config) (nb size : Nat) (s : GcState) :
    (∃ pb, s.ws.part_list = some pb ∧
      ((s.heap pb).start + P.BLOCK_SIZE_W : Int) - (s.heap pb).free > int_of_nat size ∧
      (alloc_todo_block P nb size s).1.ws.todo_bd = some pb ∧
      (alloc_todo_block P nb size s).1.ws.part_list = (s.heap pb).link ∧
      (alloc_todo_block P nb size s).1.ws.n_part_blocks = s.ws.n_part_blocks - 1 ∧
      ((alloc_todo_block P nb size s).1.heap pb).scan = (s.heap pb).scan ∧
      (∀ i, i ≠ pb → (alloc_todo_block P nb size s).1.heap i = s.heap i)) ∨
    ((s.ws.part_list = none ∨ ∃ pb, s.ws.part_list = some pb ∧
        ((s.heap pb).start + P.BLOCK_SIZE_W : Int) - (s.heap pb).free ≤ int_of_nat size) ∧
      (alloc_todo_block P nb size s).1.ws.todo_bd = some nb ∧
      (alloc_todo_block P nb size s).1.ws.part_list = s.ws.part_list ∧
      (alloc_todo_block P nb size s).1.ws.n_part_blocks = s.ws.n_part_blocks) := by
  unfold alloc_todo_block
  cases hpb : part_block P size s with
  | some pb =>
    left
    obtain ⟨h1, h2⟩ := part_block_some P size s pb hpb
    refine ⟨pb, h1, h2, rfl, rfl, rfl, ?_, ?_⟩
    · simp [install_todo_block, take_part_block]
    · intro i hi
      simp [install_todo_block, take_part_block, setBlock_other _ _ _ _ hi]
  | none =>
    right
    refine ⟨?_, rfl, rfl, rfl⟩
    unfold part_block at hpb
    split at hpb
    · rename_i q hq
      split at hpb
      · simp at hpb
      · rename_i hc
        exact Or.inr ⟨q, hq, not_lt.mp hc⟩
    · rename_i hq
      exact Or.inl hq

/-- Counterexample to C9 as stated (Scenario B): free 950, scan 900, limit 960,
queue non-empty, request 30. The code takes the growth path (the todo block is
kept, the limit becomes 1000 and the cursor 950 is returned) although the limit
extended by `max 100 30` does not fit below word 1000. -/
theorem growth_although_extension_overshoots :
    (todo_block_full cfg 7 30 stB).map
        (fun r => (r.1.ws.todo_bd, r.1.ws.todo_lim, r.1.stp.n_todos, r.1.ws.n_part_blocks,
          r.1.ws.n_scavd_blocks, r.2)) = some (some 0, 1000, 1, 0, 0, 950) ∧
    ¬ (growth_path cfg 30 0 (sync_free 0 stB) = true ↔ spec_growth_condition cfg 30 0 stB) := by
  refine ⟨by decide, ?_⟩
  intro h
  have h1 := (h.mp (by decide)).2
  revert h1
  decide

/-- C9, amended. `todo_block_full` takes the in-place growth path if and only if
(the step's queue is non-empty or `todo_free - scan < WORK_UNIT_WORDS / 2`) and
the requested object itself fits strictly below the end of the block,
`todo_free + size < start + BLOCK_SIZE_W`; on that path it only increases the
limit, and otherwise it retires the block and allocates a replacement. -/
theorem todo_block_full_growth_iff (P : Config) (nb size bd : Nat) (s : GcState)
    (hbd : s.ws.todo_bd = some bd) :
    (growth_path P size bd (sync_free bd s) = true ↔
      (s.stp.todos ≠ none ∨
        ((s.ws.todo_free : Int) - (s.heap bd).scan < ((P.WORK_UNIT_WORDS / 2 : Nat) : Int))) ∧
      s.ws.todo_free + size < (s.heap bd).start + P.BLOCK_SIZE_W) ∧
    (growth_path P size bd (sync_free bd s) = true →
      todo_block_full P nb size s = some (grow_limit P size bd (sync_free bd s))) ∧
    (growth_path P size bd (sync_free bd s) = false →
      todo_block_full P nb size s =
        some (replace_block P nb size (retire_block P bd (sync_free bd s)))) := by
  refine ⟨?_, ?_, ?_⟩
  · rw [growth_path_true]
    simp only [sync_free, setBlock_same]
  · intro hg
    unfold todo_block_full
    rw [hbd]
    simp only [hg, if_true]
  · intro hg
    unfold todo_block_full
    rw [hbd]
    simp only [hg]
    rfl

/-- Witness of C9, amended: in Scenario B the growth path is taken. -/
theorem todo_block_full_growth_iff_witness :
    growth_path cfg 30 0 (sync_free 0 stB) = true ∧
    todo_block_full cfg 7 30 stB = some (grow_limit cfg 30 0 (sync_free 0 stB)) :=
  have h := todo_block_full_growth_iff cfg 7 30 0 stB (by decide)
  ⟨h.1.mpr (by decide), h.2.1 (by decide)⟩

/-- C10. Effect of the in-place growth path: `todo_block_full` returns the
unchanged `ws->todo_free`, keeps the todo block, the scan block, the buffer, the
step's queue, `part_list`, `scavd_list` and their counters, changes no link and
no descriptor other than the `free` field of the todo block, and the new limit
is `min (start + BLOCK_SIZE_W) (todo_lim + max WORK_UNIT_WORDS size)`. -/
theorem todo_block_full_growth_effect (P : Config) (nb size bd : Nat) (s : GcState)
    (hbd : s.ws.todo_bd = some bd)
    (hg : growth_path P size bd (sync_free bd s) = true) :
    ∃ s', todo_block_full P nb size s = some (s', s.ws.todo_free) ∧
      s'.ws.todo_free = s.ws.todo_free ∧ s'.ws.todo_bd = some bd ∧
      s'.ws.scan_bd = s.ws.scan_bd ∧ s'.ws.buffer_todo_bd = s.ws.buffer_todo_bd ∧
      s'.stp = s.stp ∧
      s'.ws.part_list = s.ws.part_list ∧ s'.ws.n_part_blocks = s.ws.n_part_blocks ∧
      s'.ws.scavd_list = s.ws.scavd_list ∧ s'.ws.n_scavd_blocks = s.ws.n_scavd_blocks ∧
      s'.ws.todo_lim =
        min ((s.heap bd).start + P.BLOCK_SIZE_W) (s.ws.todo_lim + max P.WORK_UNIT_WORDS size) ∧
      (∀ i, (s'.heap i).link = (s.heap i).link) ∧
      (∀ i, i ≠ bd → s'.heap i = s.heap i) ∧
      s'.heap bd = { s.heap bd with free := s.ws.todo_free } := by
  refine ⟨(grow_limit P size bd (sync_free bd s)).1, ?_, rfl, hbd, rfl, rfl, rfl, rfl, rfl, rfl,
    rfl, ?_, ?_, ?_, ?_⟩
  · unfold todo_block_full
    rw [hbd]
    simp only [hg, if_true]
    rfl
  · simp only [grow_limit, sync_free, setBlock_same, stg_min_eq, stg_max_eq]
  · intro i
    by_cases hi : i = bd
    · subst hi; simp [grow_limit, sync_free]
    · simp [grow_limit, sync_free, setBlock_other _ _ _ _ hi]
  · intro i hi
    simp [grow_limit, sync_free, setBlock_other _ _ _ _ hi]
  · simp [grow_limit, sync_free]

/-- Witness of C10 (Scenario B): capacity 1000, work unit 100, free 950, scan 900,
limit 960, queue non-empty, request 30: the limit becomes 1000 and the cursor
950 is returned. -/
theorem todo_block_full_growth_effect_witness :
    ∃ s', todo_block_full cfg 7 30 stB = some (s', 950) ∧ s'.ws.todo_bd = some 0 ∧
      s'.stp = stB.stp ∧ s'.ws.todo_lim = 1000 :=
  (todo_block_full_growth_effect cfg 7 30 0 stB (by decide) (by decide)).imp
    fun _ h => ⟨h.1, h.2.2.1, h.2.2.2.2.2.1, h.2.2.2.2.2.2.2.2.2.2.1⟩

/-! ### Effects of the operations on the lists -/

theorem Chain_frame (h h' : Nat → bdescr) (l : List Nat) (p : Option Nat)
    (hf : ∀ i ∈ l, h' i = h i) : Chain h' p l ↔ Chain h p l :=
  Chain_congr h h' l p (fun i hi => by rw [hf i hi])

theorem retire_block_cases (P : Config) (bd : Nat) (s : GcState) :
    retire_block P bd s = s ∨ retire_block P bd s = push_scanned_block P bd s ∨
      retire_block P bd s = publish bd s := by
  unfold retire_block
  split
  · split
    · exact Or.inr (Or.inl rfl)
    · exact Or.inr (Or.inr rfl)
  · exact Or.inl rfl

theorem push_scanned_block_effect (P : Config) (bd : Nat) (s : GcState) :
    (push_scanned_block P bd s).stp = s.stp ∧
    (push_scanned_block P bd s).ws.buffer_todo_bd = s.ws.buffer_todo_bd ∧
    (push_scanned_block P bd s).ws.todo_bd = s.ws.todo_bd ∧
    (∀ i, i ≠ bd → (push_scanned_block P bd s).heap i = s.heap i) ∧
    (((push_scanned_block P bd s).ws.part_list = some bd ∧
        ((push_scanned_block P bd s).heap bd).link = s.ws.part_list ∧
        (push_scanned_block P bd s).ws.n_part_blocks = s.ws.n_part_blocks + 1 ∧
        (push_scanned_block P bd s).ws.scavd_list = s.ws.scavd_list ∧
        (push_scanned_block P bd s).ws.n_scavd_blocks = s.ws.n_scavd_blocks) ∨
      ((push_scanned_block P bd s).ws.scavd_list = some bd ∧
        ((push_scanned_block P bd s).heap bd).link = s.ws.scavd_list ∧
        (push_scanned_block P bd s).ws.n_scavd_blocks = s.ws.n_scavd_blocks + 1 ∧
        (push_scanned_block P bd s).ws.part_list = s.ws.part_list ∧
        (push_scanned_block P bd s).ws.n_part_blocks = s.ws.n_part_blocks)) := by
  unfold push_scanned_block
  split
  · refine ⟨rfl, rfl, rfl, fun i hi => setBlock_other _ _ _ _ hi, Or.inl ⟨rfl, ?_, rfl, rfl, rfl⟩⟩
    simp
  · refine ⟨rfl, rfl, rfl, fun i hi => setBlock_other _ _ _ _ hi, Or.inr ⟨rfl, ?_, rfl, rfl, rfl⟩⟩
    simp

theorem publish_effect (bd : Nat) (s : GcState) :
    (publish bd s).ws = s.ws ∧
    (∀ i, (∀ l, s.stp.todos_last = some l → i ≠ l) → (publish bd s).heap i = s.heap i) := by
  unfold publish
  split
  · exact ⟨rfl, fun _ _ => rfl⟩
  · rename_i l hl
    exact ⟨rfl, fun i hi => setBlock_other _ _ _ _ (hi l hl)⟩

theorem alloc_todo_block_effect (P : Config) (nb size : Nat) (s : GcState) :
    ∃ tb, (alloc_todo_block P nb size s).1.ws.todo_bd = some tb ∧
      (∀ i, i ≠ tb → (alloc_todo_block P nb size s).1.heap i = s.heap i) ∧
      ((alloc_todo_block P nb size s).1.heap tb).link = none ∧
      ((tb = nb ∧ (alloc_todo_block P nb size s).1.ws.part_list = s.ws.part_list ∧
          (alloc_todo_block P nb size s).1.ws.n_part_blocks = s.ws.n_part_blocks) ∨
        (s.ws.part_list = some tb ∧
          (alloc_todo_block P nb size s).1.ws.part_list = (s.heap tb).link ∧
          (alloc_todo_block P nb size s).1.ws.n_part_blocks = s.ws.n_part_blocks - 1)) ∧
      (alloc_todo_block P nb size s).1.ws.scavd_list = s.ws.scavd_list ∧
      (alloc_todo_block P nb size s).1.ws.n_scavd_blocks = s.ws.n_scavd_blocks ∧
      (alloc_todo_block P nb size s).1.ws.buffer_todo_bd = s.ws.buffer_todo_bd ∧
      (alloc_todo_block P nb size s).1.ws.scan_bd = s.ws.scan_bd ∧
      (alloc_todo_block P nb size s).1.stp = s.stp := by
  unfold alloc_todo_block
  cases hpb : part_block P size s with
  | some pb =>
    obtain ⟨h1, _⟩ := part_block_some P size s pb hpb
    refine ⟨pb, rfl, ?_, ?_, Or.inr ⟨h1, rfl, rfl⟩, rfl, rfl, rfl, rfl, rfl⟩
    · intro i hi
      simp [install_todo_block, take_part_block, setBlock_other _ _ _ _ hi]
    · simp [install_todo_block]
  | none =>
    refine ⟨nb, rfl, ?_, ?_, Or.inl ⟨rfl, rfl, rfl⟩, rfl, rfl, rfl, rfl, rfl⟩
    · intro i hi
      simp [install_todo_block, init_fresh_block, setBlock_other _ _ _ _ hi]
    · simp [install_todo_block]

/-- The local lists after `alloc_todo_block`: `part_list` is unchanged when the
allocator's block is taken and loses its head otherwise. -/
theorem alloc_todo_block_lists (P : Config) (nb size : Nat) (s : GcState) (pl sl : List Nat)
    (hpl : Chain s.heap s.ws.part_list pl) (hsl : Chain s.heap s.ws.scavd_list sl)
    (hd : ∀ b ∈ pl, b ∉ sl) (hnb : nb ∉ pl ∧ nb ∉ sl) :
    ∃ tb pl', (alloc_todo_block P nb size s).1.ws.todo_bd = some tb ∧
      ((tb = nb ∧ pl' = pl ∧
          (alloc_todo_block P nb size s).1.ws.n_part_blocks = s.ws.n_part_blocks) ∨
        (pl = tb :: pl' ∧
          (alloc_todo_block P nb size s).1.ws.n_part_blocks = s.ws.n_part_blocks - 1)) ∧
      Chain (alloc_todo_block P nb size s).1.heap (alloc_todo_block P nb size s).1.ws.part_list
        pl' ∧
      Chain (alloc_todo_block P nb size s).1.heap (alloc_todo_block P nb size s).1.ws.scavd_list
        sl ∧
      (alloc_todo_block P nb size s).1.ws.n_scavd_blocks = s.ws.n_scavd_blocks ∧
      tb ∉ pl' ∧ tb ∉ sl := by
  obtain ⟨tb, e1, e2, _, e4, e5, e6, _, _, _⟩ := alloc_todo_block_effect P nb size s
  rcases e4 with ⟨ha, hb, hc⟩ | ⟨ha, hb, hc⟩
  · subst ha
    refine ⟨tb, pl, e1, Or.inl ⟨rfl, rfl, hc⟩, ?_, ?_, e6, hnb.1, hnb.2⟩
    · rw [hb]
      exact (Chain_frame _ _ _ _ (fun i hi => e2 i (fun e => hnb.1 (e ▸ hi)))).mpr hpl
    · rw [e5]
      exact (Chain_frame _ _ _ _ (fun i hi => e2 i (fun e => hnb.2 (e ▸ hi)))).mpr hsl
  · have hnd := Chain_nodup _ _ _ hpl
    cases pl with
    | nil =>
      simp only [Chain] at hpl
      rw [hpl] at ha
      cases ha
    | cons a pl' =>
      simp only [Chain] at hpl
      have hat : a = tb := by
        have := hpl.1.symm.trans ha
        exact Option.some.inj this
      subst hat
      have h1 : a ∉ pl' := (List.nodup_cons.mp hnd).1
      have h2 : a ∉ sl := hd a (List.mem_cons_self _ _)
      refine ⟨a, pl', e1, Or.inr ⟨rfl, hc⟩, ?_, ?_, e6, h1, h2⟩
      · rw [hb]
        exact (Chain_frame _ _ _ _ (fun i hi => e2 i (fun e => h1 (e ▸ hi)))).mpr hpl.2
      · rw [e5]
        exact (Chain_frame _ _ _ _ (fun i hi => e2 i (fun e => h2 (e ▸ hi)))).mpr hsl

theorem alloc_todo_block_counted (P : Config) (nb size : Nat) (s : GcState) (pl sl : List Nat)
    (h : Counted s pl sl) (hd : ∀ b ∈ pl, b ∉ sl) (hnb : nb ∉ pl ∧ nb ∉ sl) :
    ∃ pl', (pl' = pl ∨ pl' = pl.tail) ∧ Counted (alloc_todo_block P nb size s).1 pl' sl := by
  obtain ⟨hpl, hn1, hsl, hn2⟩ := h
  obtain ⟨tb, pl', _, a2, a3, a4, a5, _, _⟩ :=
    alloc_todo_block_lists P nb size s pl sl hpl hsl hd hnb
  rcases a2 with ⟨_, hb, hc⟩ | ⟨hb, hc⟩
  · subst hb
    exact ⟨pl', Or.inl rfl, a3, hc.trans hn1, a4, a5.trans hn2⟩
  · subst hb
    refine ⟨pl', Or.inr rfl, a3, ?_, a4, a5.trans hn2⟩
    rw [hc, hn1]
    simp

theorem push_scanned_block_counted (P : Config) (bd : Nat) (s : GcState) (pl sl : List Nat)
    (h : Counted s pl sl) (h1 : bd ∉ pl) (h2 : bd ∉ sl) :
    Counted (push_scanned_block P bd s) (bd :: pl) sl ∨
      Counted (push_scanned_block P bd s) pl (bd :: sl) := by
  obtain ⟨hpl, hn1, hsl, hn2⟩ := h
  obtain ⟨_, _, _, e4, e5⟩ := push_scanned_block_effect P bd s
  have f1 : ∀ p, Chain (push_scanned_block P bd s).heap p pl ↔ Chain s.heap p pl :=
    fun p => Chain_frame _ _ _ _ (fun i hi => e4 i (fun e => h1 (e ▸ hi)))
  have f2 : ∀ p, Chain (push_scanned_block P bd s).heap p sl ↔ Chain s.heap p sl :=
    fun p => Chain_frame _ _ _ _ (fun i hi => e4 i (fun e => h2 (e ▸ hi)))
  rcases e5 with ⟨a, b, c, d, e⟩ | ⟨a, b, c, d, e⟩
  · left
    refine ⟨?_, ?_, ?_, ?_⟩
    · rw [a]
      exact ⟨rfl, by rw [b]; exact (f1 _).mpr hpl⟩
    · rw [c, hn1]; simp
    · rw [d]; exact (f2 _).mpr hsl
    · rw [e, hn2]
  · right
    refine ⟨?_, ?_, ?_, ?_⟩
    · rw [d]; exact (f1 _).mpr hpl
    · rw [e, hn1]
    · rw [a]
      exact ⟨rfl, by rw [b]; exact (f2 _).mpr hsl⟩
    · rw [c, hn2]; simp

theorem Counted_of_links (s s' : GcState) (pl sl : List Nat) (h : Counted s pl sl)
    (hl : ∀ i, (s'.heap i).link = (s.heap i).link)
    (h1 : s'.ws.part_list = s.ws.part_list) (h2 : s'.ws.n_part_blocks = s.ws.n_part_blocks)
    (h3 : s'.ws.scavd_list = s.ws.scavd_list)
    (h4 : s'.ws.n_scavd_blocks = s.ws.n_scavd_blocks) : Counted s' pl sl := by
  obtain ⟨a, b, c, d⟩ := h
  refine ⟨?_, h2.trans b, ?_, h4.trans d⟩
  · rw [h1]; exact (Chain_congr _ _ _ _ (fun i _ => hl i)).mpr a
  · rw [h3]; exact (Chain_congr _ _ _ _ (fun i _ => hl i)).mpr c

theorem sync_free_link (bd : Nat) (s : GcState) (i : Nat) :
    ((sync_free bd s).heap i).link = (s.heap i).link := by
  by_cases hi : i = bd
  · subst hi; simp [sync_free]
  · simp [sync_free, setBlock_other _ _ _ _ hi]

theorem retire_block_counted (P : Config) (nb tb : Nat) (s : GcState) (pl sl : List Nat)
    (h : Counted s pl sl) (hd : ∀ b ∈ pl, b ∉ sl) (hnb : nb ∉ pl ∧ nb ∉ sl)
    (h1 : tb ∉ pl) (h2 : tb ∉ sl) (hne : nb ≠ tb)
    (hlast : ∀ l, s.stp.todos_last = some l → l ∉ pl ∧ l ∉ sl) :
    ∃ pl2 sl2, Counted (retire_block P tb s) pl2 sl2 ∧ (∀ b ∈ pl2, b ∉ sl2) ∧
      nb ∉ pl2 ∧ nb ∉ sl2 := by
  rcases retire_block_cases P tb s with e | e | e
  · rw [e]; exact ⟨pl, sl, h, hd, hnb.1, hnb.2⟩
  · rw [e]
    rcases push_scanned_block_counted P tb s pl sl h h1 h2 with c | c
    · refine ⟨tb :: pl, sl, c, ?_, ?_, hnb.2⟩
      · intro b hb
        rcases List.mem_cons.mp hb with hb | hb
        · rw [hb]; exact h2
        · exact hd b hb
      · intro hm
        rcases List.mem_cons.mp hm with hm | hm
        · exact hne hm
        · exact hnb.1 hm
    · refine ⟨pl, tb :: sl, c, ?_, hnb.1, ?_⟩
      · intro b hb hm
        rcases List.mem_cons.mp hm with hm | hm
        · exact h1 (hm ▸ hb)
        · exact hd b hb hm
      · intro hm
        rcases List.mem_cons.mp hm with hm | hm
        · exact hne hm
        · exact hnb.2 hm
  · rw [e]
    obtain ⟨p1, p2⟩ := publish_effect tb s
    obtain ⟨a, b, c, d⟩ := h
    refine ⟨pl, sl, ⟨?_, ?_, ?_, ?_⟩, hd, hnb.1, hnb.2⟩
    · rw [p1]
      refine (Chain_frame _ _ _ _ (fun i hi => p2 i ?_)).mpr a
      intro l hl e'
      exact (hlast l hl).1 (e' ▸ hi)
    · rw [p1]; exact b
    · rw [p1]
      refine (Chain_frame _ _ _ _ (fun i hi => p2 i ?_)).mpr c
      intro l hl e'
      exact (hlast l hl).2 (e' ▸ hi)
    · rw [p1]; exact d

/-- C7. List counters equal list lengths: when `n_part_blocks` and
`n_scavd_blocks` are the lengths of `part_list` and `scavd_list`, the two lists
share no block and the blocks handed to the functions (the pushed block, the
todo block, the allocator's block, the tail of the step's queue) are on neither
list, then the counters are again the lengths of the lists after
`push_scanned_block`, after `alloc_todo_block` (whether it pops the head of
`part_list` or takes the allocator's block) and after `todo_block_full` on
every path. -/
theorem counters_match_lengths (P : Config) (nb size : Nat) (s : GcState) (pl sl : List Nat)
    (h : Counted s pl sl) (hd : ∀ b ∈ pl, b ∉ sl) (hnb : nb ∉ pl ∧ nb ∉ sl) :
    (∀ bd, bd ∉ pl → bd ∉ sl →
      Counted (push_scanned_block P bd s) (bd :: pl) sl ∨
      Counted (push_scanned_block P bd s) pl (bd :: sl)) ∧
    (∃ pl', (pl' = pl ∨ pl' = pl.tail) ∧ Counted (alloc_todo_block P nb size s).1 pl' sl) ∧
    (∀ tb, s.ws.todo_bd = some tb → tb ∉ pl → tb ∉ sl → nb ≠ tb →
      (∀ l, s.stp.todos_last = some l → l ∉ pl ∧ l ∉ sl) →
      ∃ s' p pl' sl', todo_block_full P nb size s = some (s', p) ∧ Counted s' pl' sl') := by
  refine ⟨fun bd h1 h2 => push_scanned_block_counted P bd s pl sl h h1 h2,
    alloc_todo_block_counted P nb size s pl sl h hd hnb, ?_⟩
  intro tb htb h1 h2 hne hlast
  have hs1 : Counted (sync_free tb s) pl sl :=
    Counted_of_links s _ pl sl h (sync_free_link tb s) rfl rfl rfl rfl
  unfold todo_block_full
  rw [htb]
  simp only
  by_cases hg : growth_path P size tb (sync_free tb s) = true
  · rw [if_pos hg]
    exact ⟨_, _, pl, sl, rfl,
      Counted_of_links (sync_free tb s) _ pl sl hs1 (fun _ => rfl) rfl rfl rfl rfl⟩
  · rw [if_neg hg]
    obtain ⟨pl2, sl2, c2, d2, n1, n2⟩ :=
      retire_block_counted P nb tb (sync_free tb s) pl sl hs1 hd hnb h1 h2 hne hlast
    have c3 : Counted
        { retire_block P tb (sync_free tb s) with
          ws := { (retire_block P tb (sync_free tb s)).ws with
                  todo_bd := none, todo_free := 0, todo_lim := 0 } } pl2 sl2 :=
      Counted_of_links _ _ pl2 sl2 c2 (fun _ => rfl) rfl rfl rfl rfl
    obtain ⟨pl', _, c4⟩ := alloc_todo_block_counted P nb size _ pl2 sl2 c3 d2 ⟨n1, n2⟩
    exact ⟨_, _, pl', sl2, rfl, c4⟩

/-- Witness of C7: block 0 is fully scanned and has 600 words left, 700 words
are requested: the block is pushed on `part_list` and the counters follow. -/
theorem counters_match_lengths_witness :
    Counted stR [4] [6] ∧
    ∃ s' p pl' sl', todo_block_full cfg 7 700 stR = some (s', p) ∧ Counted s' pl' sl' :=
  ⟨by decide,
   (counters_match_lengths cfg 7 700 stR [4] [6] (by decide) (by decide) (by decide)).2.2 0
     (by decide) (by decide) (by decide) (by decide) (fun _ hl => nomatch hl)⟩

/-! ### Membership of blocks in lists -/

theorem nodup4_iff (B pl sl q : List Nat) :
    (B ++ pl ++ sl ++ q).Nodup ↔
      B.Nodup ∧ pl.Nodup ∧ sl.Nodup ∧ q.Nodup ∧
      (∀ x ∈ B, x ∉ pl ∧ x ∉ sl ∧ x ∉ q) ∧ (∀ x ∈ pl, x ∉ sl ∧ x ∉ q) ∧ (∀ x ∈ sl, x ∉ q) := by
  simp only [List.nodup_append, List.disjoint_left, List.mem_append]
  constructor
  · rintro ⟨⟨⟨hB, hpl, h1⟩, hsl, h2⟩, hq, h3⟩
    exact ⟨hB, hpl, hsl, hq,
      fun x hx => ⟨h1 hx, h2 (Or.inl hx), h3 (Or.inl (Or.inl hx))⟩,
      fun x hx => ⟨h2 (Or.inr hx), h3 (Or.inl (Or.inr hx))⟩,
      fun x hx => h3 (Or.inr hx)⟩
  · rintro ⟨hB, hpl, hsl, hq, h1, h2, h3⟩
    refine ⟨⟨⟨hB, hpl, fun {x} hx => (h1 x hx).1⟩, hsl, ?_⟩, hq, ?_⟩
    · rintro x (hx | hx)
      · exact (h1 x hx).2.1
      · exact (h2 x hx).1
    · rintro x ((hx | hx) | hx)
      · exact (h1 x hx).2.2
      · exact (h2 x hx).2
      · exact h3 x hx

theorem Owned_of_links (s s' : GcState) (B pl sl q : List Nat) (h : Owned s B pl sl q)
    (hl : ∀ i, (s'.heap i).link = (s.heap i).link)
    (h1 : s'.ws.part_list = s.ws.part_list) (h2 : s'.ws.scavd_list = s.ws.scavd_list)
    (h3 : s'.stp = s.stp) : Owned s' B pl sl q := by
  obtain ⟨a, b, c, d⟩ := h
  refine ⟨?_, ?_, ⟨?_, ?_⟩, d⟩
  · rw [h1]; exact (Chain_congr _ _ _ _ (fun i _ => hl i)).mpr a
  · rw [h2]; exact (Chain_congr _ _ _ _ (fun i _ => hl i)).mpr b
  · rw [h3]; exact (Chain_congr _ _ _ _ (fun i _ => hl i)).mpr c.1
  · rw [h3]; exact c.2

theorem Owned_mono (s : GcState) (B B' pl sl q : List Nat) (h : Owned s B pl sl q)
    (hnd : B'.Nodup) (hsub : ∀ x ∈ B', x ∈ B) : Owned s B' pl sl q := by
  obtain ⟨a, b, c, d⟩ := h
  refine ⟨a, b, c, ?_⟩
  rw [nodup4_iff] at d ⊢
  obtain ⟨_, d2, d3, d4, d5, d6, d7⟩ := d
  exact ⟨hnd, d2, d3, d4, fun x hx => d5 x (hsub x hx), d6, d7⟩

theorem push_scanned_block_owned (P : Config) (bd : Nat) (s : GcState) (B pl sl q : List Nat)
    (h : Owned s B pl sl q) (hB : bd ∉ B) (h1 : bd ∉ pl) (h2 : bd ∉ sl) (h3 : bd ∉ q) :
    Owned (push_scanned_block P bd s) B (bd :: pl) sl q ∨
      Owned (push_scanned_block P bd s) B pl (bd :: sl) q := by
  obtain ⟨hpl, hsl, hq, hnd⟩ := h
  obtain ⟨e1, _, _, e4, e5⟩ := push_scanned_block_effect P bd s
  have fr : ∀ (l : List Nat) p, bd ∉ l →
      (Chain (push_scanned_block P bd s).heap p l ↔ Chain s.heap p l) :=
    fun l p hn => Chain_frame _ _ _ _ (fun i hi => e4 i (fun e => hn (e ▸ hi)))
  have hq' : QueueWF (push_scanned_block P bd s) q := by
    refine ⟨?_, ?_⟩
    · rw [e1]; exact (fr _ _ h3).mpr hq.1
    · rw [e1]; exact hq.2
  rw [nodup4_iff] at hnd
  obtain ⟨n1, n2, n3, n4, n5, n6, n7⟩ := hnd
  rcases e5 with ⟨a, b, _, d, _⟩ | ⟨a, b, _, d, _⟩
  · left
    refine ⟨?_, ?_, hq', ?_⟩
    · rw [a]
      exact ⟨rfl, by rw [b]; exact (fr _ _ h1).mpr hpl⟩
    · rw [d]; exact (fr _ _ h2).mpr hsl
    · rw [nodup4_iff]
      refine ⟨n1, List.nodup_cons.mpr ⟨h1, n2⟩, n3, n4, ?_, ?_, n7⟩
      · intro x hx
        refine ⟨?_, (n5 x hx).2⟩
        intro hm
        rcases List.mem_cons.mp hm with hm | hm
        · exact hB (hm ▸ hx)
        · exact (n5 x hx).1 hm
      · intro x hx
        rcases List.mem_cons.mp hx with hx | hx
        · rw [hx]; exact ⟨h2, h3⟩
        · exact n6 x hx
  · right
    refine ⟨?_, ?_, hq', ?_⟩
    · rw [d]; exact (fr _ _ h1).mpr hpl
    · rw [a]
      exact ⟨rfl, by rw [b]; exact (fr _ _ h2).mpr hsl⟩
    · rw [nodup4_iff]
      refine ⟨n1, n2, List.nodup_cons.mpr ⟨h2, n3⟩, n4, ?_, ?_, ?_⟩
      · intro x hx
        refine ⟨(n5 x hx).1, ?_, (n5 x hx).2.2⟩
        intro hm
        rcases List.mem_cons.mp hm with hm | hm
        · exact hB (hm ▸ hx)
        · exact (n5 x hx).2.1 hm
      · intro x hx
        refine ⟨?_, (n6 x hx).2⟩
        intro hm
        rcases List.mem_cons.mp hm with hm | hm
        · exact h1 (hm ▸ hx)
        · exact (n6 x hx).1 hm
      · intro x hx
        rcases List.mem_cons.mp hx with hx | hx
        · rw [hx]; exact h3
        · exact n7 x hx

theorem publish_owned (bd : Nat) (s : GcState) (B pl sl q : List Nat)
    (h : Owned s B pl sl q) (hB : bd ∉ B) (h1 : bd ∉ pl) (h2 : bd ∉ sl) (h3 : bd ∉ q)
    (hl : (s.heap bd).link = none) : Owned (publish bd s) B pl sl (q ++ [bd]) := by
  obtain ⟨hpl, hsl, hq, hnd⟩ := h
  obtain ⟨p1, _, p3, p4⟩ := publish_queue s bd q hq h3 hl
  rw [nodup4_iff] at hnd
  obtain ⟨n1, n2, n3, _, n5, n6, n7⟩ := hnd
  refine ⟨?_, ?_, p1, ?_⟩
  · rw [p3]
    exact (Chain_frame _ _ _ _ (fun i hi => p4 i (n6 i hi).2)).mpr hpl
  · rw [p3]
    exact (Chain_frame _ _ _ _ (fun i hi => p4 i (n7 i hi))).mpr hsl
  · rw [nodup4_iff]
    refine ⟨n1, n2, n3, Chain_nodup _ _ _ p1.1, ?_, ?_, ?_⟩
    · intro x hx
      refine ⟨(n5 x hx).1, (n5 x hx).2.1, ?_⟩
      intro hm
      rcases List.mem_append.mp hm with hm | hm
      · exact (n5 x hx).2.2 hm
      · rw [List.mem_singleton] at hm
        exact hB (hm ▸ hx)
    · intro x hx
      refine ⟨(n6 x hx).1, ?_⟩
      intro hm
      rcases List.mem_append.mp hm with hm | hm
      · exact (n6 x hx).2 hm
      · rw [List.mem_singleton] at hm
        exact h1 (hm ▸ hx)
    · intro x hx hm
      rcases List.mem_append.mp hm with hm | hm
      · exact n7 x hx hm
      · rw [List.mem_singleton] at hm
        exact h2 (hm ▸ hx)

theorem alloc_todo_block_owned (P : Config) (nb size : Nat) (s : GcState) (B pl sl q : List Nat)
    (h : Owned s B pl sl q) (hB : nb ∉ B) (h1 : nb ∉ pl) (h2 : nb ∉ sl) (h3 : nb ∉ q) :
    ∃ tb pl', (alloc_todo_block P nb size s).1.ws.todo_bd = some tb ∧
      (alloc_todo_block P nb size s).1.ws.buffer_todo_bd = s.ws.buffer_todo_bd ∧
      (pl' = pl ∨ pl = tb :: pl') ∧
      Owned (alloc_todo_block P nb size s).1 (B ++ [tb]) pl' sl q := by
  obtain ⟨hpl, hsl, hq, hnd⟩ := h
  rw [nodup4_iff] at hnd
  obtain ⟨n1, n2, n3, n4, n5, n6, n7⟩ := hnd
  obtain ⟨tb, pl', a1, a2, a3, a4, _, a6, a7⟩ :=
    alloc_todo_block_lists P nb size s pl sl hpl hsl (fun b hb => (n6 b hb).1) ⟨h1, h2⟩
  obtain ⟨tb', e1, e2, _, _, _, _, e7, _, e9⟩ := alloc_todo_block_effect P nb size s
  have htb : tb' = tb := Option.some.inj (e1.symm.trans a1)
  subst htb
  -- where the new todo block comes from
  have hsrc : (tb' = nb ∧ pl' = pl) ∨ pl = tb' :: pl' := by
    rcases a2 with ⟨x, y, _⟩ | ⟨x, _⟩
    · exact Or.inl ⟨x, y⟩
    · exact Or.inr x
  have htq : tb' ∉ q := by
    rcases hsrc with ⟨x, _⟩ | x
    · rw [x]; exact h3
    · exact (n6 tb' (by rw [x]; exact List.mem_cons_self _ _)).2
  have htB : tb' ∉ B := by
    rcases hsrc with ⟨x, _⟩ | x
    · rw [x]; exact hB
    · intro hm
      exact (n5 tb' hm).1 (by rw [x]; exact List.mem_cons_self _ _)
  have hsub : ∀ x ∈ pl', x ∈ pl := by
    intro x hx
    rcases hsrc with ⟨_, y⟩ | y
    · rw [← y]; exact hx
    · rw [y]; exact List.mem_cons_of_mem _ hx
  refine ⟨tb', pl', a1, e7, ?_, a3, a4, ⟨?_, ?_⟩, ?_⟩
  · rcases hsrc with ⟨_, y⟩ | y
    · exact Or.inl y
    · exact Or.inr y
  · rw [e9]
    exact (Chain_frame _ _ _ _ (fun i hi => e2 i (fun e => htq (e ▸ hi)))).mpr hq.1
  · rw [e9]; exact hq.2
  · rw [nodup4_iff]
    refine ⟨?_, Chain_nodup _ _ _ a3, n3, n4, ?_, ?_, n7⟩
    · refine List.Nodup.append n1 (List.nodup_singleton _) ?_
      intro x hx hm
      rw [List.mem_singleton] at hm
      exact htB (hm ▸ hx)
    · intro x hx
      rcases List.mem_append.mp hx with hx | hx
      · exact ⟨fun hm => (n5 x hx).1 (hsub x hm), (n5 x hx).2.1, (n5 x hx).2.2⟩
      · rw [List.mem_singleton] at hx
        rw [hx]
        exact ⟨a6, a7, htq⟩
    · intro x hx
      exact n6 x (hsub x hx)

theorem retire_block_owned (P : Config) (tb : Nat) (s : GcState) (B pl sl q : List Nat)
    (h : Owned s (B ++ [tb]) pl sl q) (hl : (s.heap tb).link = none) :
    ∃ pl2 sl2 q2, Owned (retire_block P tb s) B pl2 sl2 q2 ∧
      (retire_block P tb s).ws.buffer_todo_bd = s.ws.buffer_todo_bd ∧
      (∀ x, x ∈ pl2 ∨ x ∈ sl2 ∨ x ∈ q2 → x = tb ∨ x ∈ pl ∨ x ∈ sl ∨ x ∈ q) := by
  have hnd := h.2.2.2
  rw [nodup4_iff] at hnd
  obtain ⟨n1, _, _, _, n5, _, _⟩ := hnd
  have hBnd : B.Nodup := (List.nodup_append.mp n1).1
  have htB : tb ∉ B := by
    intro hm
    exact (List.nodup_append.mp n1).2.2 hm (List.mem_singleton_self _) 
  obtain ⟨t1, t2, t3⟩ := n5 tb (List.mem_append_right _ (List.mem_singleton_self _))
  have h0 : Owned s B pl sl q :=
    Owned_mono s _ B pl sl q h hBnd (fun x hx => List.mem_append_left _ hx)
  rcases retire_block_cases P tb s with e | e | e
  · rw [e]
    exact ⟨pl, sl, q, h0, rfl, fun x hx => Or.inr hx⟩
  · rw [e]
    have hb := (push_scanned_block_effect P tb s).2.1
    rcases push_scanned_block_owned P tb s B pl sl q h0 htB t1 t2 t3 with c | c
    · refine ⟨tb :: pl, sl, q, c, hb, ?_⟩
      rintro x (hx | hx | hx)
      · rcases List.mem_cons.mp hx with hx | hx
        · exact Or.inl hx
        · exact Or.inr (Or.inl hx)
      · exact Or.inr (Or.inr (Or.inl hx))
      · exact Or.inr (Or.inr (Or.inr hx))
    · refine ⟨pl, tb :: sl, q, c, hb, ?_⟩
      rintro x (hx | hx | hx)
      · exact Or.inr (Or.inl hx)
      · rcases List.mem_cons.mp hx with hx | hx
        · exact Or.inl hx
        · exact Or.inr (Or.inr (Or.inl hx))
      · exact Or.inr (Or.inr (Or.inr hx))
  · rw [e]
    refine ⟨pl, sl, q ++ [tb], publish_owned tb s B pl sl q h0 htB t1 t2 t3 hl, ?_, ?_⟩
    · rw [(publish_effect tb s).1]
    · rintro x (hx | hx | hx)
      · exact Or.inr (Or.inl hx)
      · exact Or.inr (Or.inr (Or.inl hx))
      · rcases List.mem_append.mp hx with hx | hx
        · exact Or.inr (Or.inr (Or.inr hx))
        · rw [List.mem_singleton] at hx
          exact Or.inl hx

theorem grab_todo_block_one_list (s : GcState) (pl sl q : List Nat) (h : OneList s pl sl q) :
    ∃ q', (q' = q ∨ q' = q.tail) ∧ OneList (grab_todo_block s).1 pl sl q' ∧
      ∀ b, (grab_todo_block s).2 = some b →
        b ∉ (grab_todo_block s).1.ws.buffer_todo_bd.toList ++
            (grab_todo_block s).1.ws.todo_bd.toList ++ pl ++ sl ++ q' := by
  unfold OneList at h ⊢
  have hnd := h.2.2.2
  rw [nodup4_iff] at hnd
  obtain ⟨n1, n2, n3, n4, n5, n6, n7⟩ := hnd
  cases hbuf : s.ws.buffer_todo_bd with
  | some b =>
    have hg : grab_todo_block s =
        ({ s with ws := { s.ws with buffer_todo_bd := none } }, some b) := by
      unfold grab_todo_block
      rw [hbuf]
    rw [hbuf] at n1 n5
    have hbt : b ∉ s.ws.todo_bd.toList := by
      intro hm
      exact (List.nodup_append.mp n1).2.2 (by simp) hm
    have hb := n5 b (by simp)
    refine ⟨q, Or.inl rfl, ?_, ?_⟩
    · rw [hg]
      refine Owned_mono _ _ _ pl sl q (Owned_of_links s _ _ pl sl q h (fun _ => rfl) rfl rfl rfl)
        ?_ ?_
      · simpa using (List.nodup_append.mp n1).2.1
      · intro x hx
        simp only [Option.toList_none, List.nil_append] at hx
        exact List.mem_append_right _ hx
    · intro b' hb'
      rw [hg] at hb' ⊢
      simp only [Option.some.injEq] at hb'
      subst hb'
      simp only [Option.toList_none, List.nil_append, List.mem_append, not_or]
      exact ⟨⟨⟨hbt, hb.1⟩, hb.2.1⟩, hb.2.2⟩
  | none =>
    cases q with
    | nil =>
      have h0 : s.stp.todos = none := h.2.2.1.1
      rw [grab_empty s hbuf h0]
      exact ⟨[], Or.inl rfl, h, fun b hb => by cases hb⟩
    | cons a q' =>
      obtain ⟨g1, g2, _, g4, g5⟩ := grab_queue s a q' hbuf h.2.2.1
      have ha1 : a ∉ pl := fun hm => (n6 a hm).2 (List.mem_cons_self _ _)
      have ha2 : a ∉ sl := fun hm => n7 a hm (List.mem_cons_self _ _)
      have ha3 : a ∉ q' := (List.nodup_cons.mp n4).1
      have haB : a ∉ s.ws.buffer_todo_bd.toList ++ s.ws.todo_bd.toList :=
        fun hm => (n5 a hm).2.2 (List.mem_cons_self _ _)
      have hnd' : (s.ws.buffer_todo_bd.toList ++ s.ws.todo_bd.toList ++ pl ++ sl ++ q').Nodup := by
        rw [nodup4_iff]
        exact ⟨n1, n2, n3, (List.nodup_cons.mp n4).2,
          fun x hx => ⟨(n5 x hx).1, (n5 x hx).2.1,
            fun hm => (n5 x hx).2.2 (List.mem_cons_of_mem _ hm)⟩,
          fun x hx => ⟨(n6 x hx).1, fun hm => (n6 x hx).2 (List.mem_cons_of_mem _ hm)⟩,
          fun x hx hm => n7 x hx (List.mem_cons_of_mem _ hm)⟩
      refine ⟨q', Or.inr rfl, ⟨?_, ?_, g2, ?_⟩, ?_⟩
      · rw [g4, g5]
        exact (Chain_setBlock _ _ _ _ _ ha1).mpr h.1
      · rw [g4, g5]
        exact (Chain_setBlock _ _ _ _ _ ha2).mpr h.2.1
      · rw [g4]; exact hnd'
      · intro b hb
        rw [g1] at hb
        simp only [Option.some.injEq] at hb
        subst hb
        rw [g4]
        simp only [List.mem_append, not_or]
        simp only [List.mem_append, not_or] at haB
        exact ⟨⟨⟨haB, ha1⟩, ha2⟩, ha3⟩

theorem todo_block_full_one_list (P : Config) (nb size tb : Nat) (s : GcState)
    (pl sl q : List Nat) (h : OneList s pl sl q)
    (hnb : nb ∉ s.ws.buffer_todo_bd.toList ++ s.ws.todo_bd.toList ++ pl ++ sl ++ q)
    (htb : s.ws.todo_bd = some tb) (hl : (s.heap tb).link = none) :
    ∃ s' p pl' sl' q', todo_block_full P nb size s = some (s', p) ∧ OneList s' pl' sl' q' := by
  unfold OneList at h
  simp only [List.mem_append, not_or] at hnb
  obtain ⟨⟨⟨⟨nb1, nb2⟩, nb3⟩, nb4⟩, nb5⟩ := hnb
  have hs1 : Owned (sync_free tb s) (s.ws.buffer_todo_bd.toList ++ s.ws.todo_bd.toList) pl sl q :=
    Owned_of_links s _ _ pl sl q h (sync_free_link tb s) rfl rfl rfl
  unfold todo_block_full
  rw [htb]
  simp only
  by_cases hg : growth_path P size tb (sync_free tb s) = true
  · rw [if_pos hg]
    refine ⟨_, _, pl, sl, q, rfl, ?_⟩
    exact Owned_of_links (sync_free tb s) _ _ pl sl q hs1 (fun _ => rfl) rfl rfl rfl
  · rw [if_neg hg]
    rw [htb] at hs1 nb2
    simp only [Option.toList_some] at hs1 nb2
    have hl1 : ((sync_free tb s).heap tb).link = none := by
      rw [sync_free_link]; exact hl
    obtain ⟨pl2, sl2, q2, o2, b2, m2⟩ :=
      retire_block_owned P tb (sync_free tb s) _ pl sl q hs1 hl1
    have hne : nb ≠ tb := fun e => nb2 (by rw [e]; exact List.mem_singleton_self _)
    have hmem : ∀ x, x ∈ pl2 ∨ x ∈ sl2 ∨ x ∈ q2 → x ≠ nb := by
      intro x hx e
      subst e
      rcases m2 x hx with c | c | c | c
      · exact hne c
      · exact nb3 c
      · exact nb4 c
      · exact nb5 c
    have o3 : Owned
        { retire_block P tb (sync_free tb s) with
          ws := { (retire_block P tb (sync_free tb s)).ws with
                  todo_bd := none, todo_free := 0, todo_lim := 0 } }
        s.ws.buffer_todo_bd.toList pl2 sl2 q2 :=
      Owned_of_links _ _ _ pl2 sl2 q2 o2 (fun _ => rfl) rfl rfl rfl
    obtain ⟨tb', pl4, a1, a2, _, a4⟩ := alloc_todo_block_owned P nb size _ _ pl2 sl2 q2 o3 nb1
      (fun hm => hmem nb (Or.inl hm) rfl) (fun hm => hmem nb (Or.inr (Or.inl hm)) rfl)
      (fun hm => hmem nb (Or.inr (Or.inr hm)) rfl)
    have a2' := a2.trans b2
    refine ⟨_, _, pl4, sl2, q2, rfl, ?_⟩
    unfold OneList
    simp only [replace_block]
    rw [a1, a2']
    exact a4

/-- C4. A block is a member of at most one list: when the buffer slot, the todo
slot, `part_list`, `scavd_list` and the step's todo queue are pairwise disjoint
and free of duplicates, and the allocator's block is in none of them, the same
holds after `grab_todo_block` (whose block is then in none of them), after
`push_scanned_block` of a block that is in none of them, after
`alloc_todo_block`, and after `todo_block_full` on every path (the todo block
has an empty link, as the function asserts). -/
theorem block_in_one_list (P : Config) (nb size : Nat) (s : GcState) (pl sl q : List Nat)
    (h : OneList s pl sl q)
    (hnb : nb ∉ s.ws.buffer_todo_bd.toList ++ s.ws.todo_bd.toList ++ pl ++ sl ++ q) :
    (∃ q', (q' = q ∨ q' = q.tail) ∧ OneList (grab_todo_block s).1 pl sl q' ∧
      ∀ b, (grab_todo_block s).2 = some b →
        b ∉ (grab_todo_block s).1.ws.buffer_todo_bd.toList ++
            (grab_todo_block s).1.ws.todo_bd.toList ++ pl ++ sl ++ q') ∧
    (∀ bd, bd ∉ s.ws.buffer_todo_bd.toList ++ s.ws.todo_bd.toList ++ pl ++ sl ++ q →
      OneList (push_scanned_block P bd s) (bd :: pl) sl q ∨
      OneList (push_scanned_block P bd s) pl (bd :: sl) q) ∧
    (∃ pl', (pl' = pl ∨ pl' = pl.tail) ∧ OneList (alloc_todo_block P nb size s).1 pl' sl q) ∧
    (∀ tb, s.ws.todo_bd = some tb → (s.heap tb).link = none →
      ∃ s' p pl' sl' q', todo_block_full P nb size s = some (s', p) ∧
        OneList s' pl' sl' q') := by
  refine ⟨grab_todo_block_one_list s pl sl q h, ?_, ?_,
    fun tb htb hl => todo_block_full_one_list P nb size tb s pl sl q h hnb htb hl⟩
  · intro bd hbd
    simp only [List.mem_append, not_or] at hbd
    obtain ⟨⟨⟨hB, b3⟩, b4⟩, b5⟩ := hbd
    obtain ⟨_, e2, e3, _, _⟩ := push_scanned_block_effect P bd s
    unfold OneList
    rw [e2, e3]
    exact push_scanned_block_owned P bd s _ pl sl q h
      (by simp only [List.mem_append, not_or]; exact hB) b3 b4 b5
  · unfold OneList at h
    simp only [List.mem_append, not_or] at hnb
    obtain ⟨⟨⟨⟨nb1, _⟩, nb3⟩, nb4⟩, nb5⟩ := hnb
    have hnd := h.2.2.2
    rw [nodup4_iff] at hnd
    have h0 : Owned s s.ws.buffer_todo_bd.toList pl sl q :=
      Owned_mono s _ _ pl sl q h (List.nodup_append.mp hnd.1).1
        (fun x hx => List.mem_append_left _ hx)
    obtain ⟨tb, pl', a1, a2, a3, a4⟩ :=
      alloc_todo_block_owned P nb size s _ pl sl q h0 nb1 nb3 nb4 nb5
    refine ⟨pl', ?_, ?_⟩
    · rcases a3 with a3 | a3
      · exact Or.inl a3
      · right; rw [a3]; rfl
    · unfold OneList
      rw [a1, a2]
      exact a4

/-- Witness of C4: block 0 is the todo block, `part_list` is [4], `scavd_list` is
[6], the queue is empty and block 7 comes from the allocator; a request of 700
words retires block 0 and the lists stay disjoint. -/
theorem block_in_one_list_witness :
    OneList stR [4] [6] [] ∧
    ∃ s' p pl' sl' q', todo_block_full cfg 7 700 stR = some (s', p) ∧ OneList s' pl' sl' q' :=
  ⟨by decide,
   (block_in_one_list cfg 7 700 stR [4] [6] [] (by decide) (by decide)).2.2.2 0
     (by decide) (by decide)⟩

/-! ### Results of `grab_todo_block` and initialisation of fresh blocks -/

theorem part_block_none_iff (P : Config) (size : Nat) (s : GcState) :
    part_block P size s = none ↔
      (s.ws.part_list = none ∨ ∃ pb, s.ws.part_list = some pb ∧
        ((s.heap pb).start + P.BLOCK_SIZE_W : Int) - (s.heap pb).free ≤ int_of_nat size) := by
  unfold part_block
  split
  · rename_i q hq
    split
    · rename_i hc
      constructor
      · intro h; cases h
      · rintro (h | ⟨pb, h1, h2⟩)
        · rw [hq] at h; cases h
        · rw [hq] at h1
          cases h1
          exact absurd hc (not_lt.mpr h2)
    · rename_i hc
      simp only [true_iff]
      exact Or.inr ⟨q, hq, not_lt.mp hc⟩
  · rename_i hq
    simp only [true_iff]
    exact Or.inl hq

/-- C13. `grab_todo_block` returns `NULL` if and only if the buffer slot and the
step's todo queue are both empty. When the buffer holds a block, that block is
returned, the buffer becomes empty and the step (`todos`, `todos_last`,
`n_todos`) and the descriptors are unchanged. When the buffer is empty and the
queue is not, the head of the queue is returned with its link cleared,
`n_todos` is decremented, the queue loses its head, and `todos_last` becomes
`NULL` exactly when the queue becomes empty. -/
theorem grab_todo_block_result (s : GcState) :
    ((grab_todo_block s).2 = none ↔ s.ws.buffer_todo_bd = none ∧ s.stp.todos = none) ∧
    (∀ b, s.ws.buffer_todo_bd = some b →
      (grab_todo_block s).2 = some b ∧ (grab_todo_block s).1.ws.buffer_todo_bd = none ∧
      (grab_todo_block s).1.stp = s.stp ∧ (grab_todo_block s).1.heap = s.heap) ∧
    (∀ a, s.ws.buffer_todo_bd = none → s.stp.todos = some a →
      (grab_todo_block s).2 = some a ∧
      (grab_todo_block s).1.stp.n_todos = s.stp.n_todos - 1 ∧
      (grab_todo_block s).1.stp.todos = (s.heap a).link ∧
      ((grab_todo_block s).1.heap a).link = none ∧
      ∀ q, QueueWF s q →
        QueueWF (grab_todo_block s).1 q.tail ∧
        ((grab_todo_block s).1.stp.todos_last = none ↔ (grab_todo_block s).1.stp.todos = none) ∧
        (s.stp.n_todos = q.length → (grab_todo_block s).1.stp.n_todos + 1 = s.stp.n_todos)) := by
  refine ⟨?_, ?_, ?_⟩
  · cases hbuf : s.ws.buffer_todo_bd with
    | some b =>
      have hg : grab_todo_block s =
          ({ s with ws := { s.ws with buffer_todo_bd := none } }, some b) := by
        unfold grab_todo_block
        rw [hbuf]
      rw [hg]
      simp
    | none =>
      cases hq : s.stp.todos with
      | none =>
        rw [grab_empty s hbuf hq]
        simp
      | some a =>
        rw [grab_head s a hbuf hq]
        simp
  · intro b hbuf
    have hg : grab_todo_block s =
        ({ s with ws := { s.ws with buffer_todo_bd := none } }, some b) := by
      unfold grab_todo_block
      rw [hbuf]
    rw [hg]
    exact ⟨rfl, rfl, rfl, rfl⟩
  · intro a hbuf hq
    have hg := grab_head s a hbuf hq
    refine ⟨by rw [hg], by rw [hg], by rw [hg], by rw [hg]; simp, ?_⟩
    intro q hwf
    cases q with
    | nil =>
      have h0 : s.stp.todos = none := hwf.1
      rw [h0] at hq
      cases hq
    | cons a' q' =>
      obtain ⟨_, g2, g3, _, _⟩ := grab_queue s a' q' hbuf hwf
      refine ⟨g2, ?_, ?_⟩
      · obtain ⟨c1, c2⟩ := g2
        rw [c2]
        cases q' with
        | nil =>
          have : (grab_todo_block s).1.stp.todos = none := c1
          simp [this]
        | cons b r =>
          have h1 : (grab_todo_block s).1.stp.todos = some b := c1.1
          have h2 : (b :: r).getLast? = some ((b :: r).getLast (by simp)) :=
            List.getLast?_eq_getLast _ _
          rw [h1, h2]
          simp
      · intro hn
        rw [g3, hn]
        simp

/-- C14. Fresh-block initialisation: when `alloc_todo_block` takes the
allocator's block (`part_list` is empty or its head has no more than
`(int)size` words left), that block becomes the todo block with `scan = start`,
the generation number and the step of the workspace, and the flags
`BF_EVACUATED` when that generation number is at most `N` and `0` otherwise. -/
theorem alloc_todo_block_fresh_init (P : Config) (nb size : Nat) (s : GcState)
    (hfresh : s.ws.part_list = none ∨ ∃ pb, s.ws.part_list = some pb ∧
      ((s.heap pb).start + P.BLOCK_SIZE_W : Int) - (s.heap pb).free ≤ int_of_nat size) :
    (alloc_todo_block P nb size s).1.ws.todo_bd = some nb ∧
    ((alloc_todo_block P nb size s).1.heap nb).scan =
      ((alloc_todo_block P nb size s).1.heap nb).start ∧
    ((alloc_todo_block P nb size s).1.heap nb).start = (s.heap nb).start ∧
    ((alloc_todo_block P nb size s).1.heap nb).free = (s.heap nb).free ∧
    ((alloc_todo_block P nb size s).1.heap nb).gen_no = s.stp.gen_no ∧
    ((alloc_todo_block P nb size s).1.heap nb).step = s.ws.step ∧
    (s.stp.gen_no ≤ P.N →
      ((alloc_todo_block P nb size s).1.heap nb).flags = P.BF_EVACUATED) ∧
    (¬ s.stp.gen_no ≤ P.N → ((alloc_todo_block P nb size s).1.heap nb).flags = 0) ∧
    (P.BF_EVACUATED ≠ 0 →
      (((alloc_todo_block P nb size s).1.heap nb).flags = P.BF_EVACUATED ↔
        s.stp.gen_no ≤ P.N)) := by
  have hpb := (part_block_none_iff P size s).mpr hfresh
  unfold alloc_todo_block
  rw [hpb]
  simp only [install_todo_block, init_fresh_block, setBlock_same]
  refine ⟨trivial, trivial, trivial, trivial, trivial, trivial, ?_, ?_, ?_⟩
  · intro h; rw [if_pos h]
  · intro h; rw [if_neg h]
  · intro hne
    by_cases h : s.stp.gen_no ≤ P.N
    · rw [if_pos h]; simp [h]
    · rw [if_neg h]
      constructor
      · intro e; exact absurd e.symm hne
      · intro e; exact absurd e h

/-- Witness of C14: in the state of Scenario B `part_list` is empty, block 7 from
the allocator becomes the todo block, and as generation 0 is at most `N = 0`
its flags are `BF_EVACUATED`. -/
theorem alloc_todo_block_fresh_init_witness :
    (alloc_todo_block cfg 7 30 stB).1.ws.todo_bd = some 7 ∧
    ((alloc_todo_block cfg 7 30 stB).1.heap 7).scan = 7000 ∧
    ((alloc_todo_block cfg 7 30 stB).1.heap 7).flags = cfg.BF_EVACUATED :=
  have h := alloc_todo_block_fresh_init cfg 7 30 stB (Or.inl (by decide))
  ⟨h.1, h.2.1.trans h.2.2.1, h.2.2.2.2.2.2.1 (by decide)⟩

/-! ### Retirement paths of `todo_block_full` -/

theorem todo_block_full_retire_eq (P : Config) (nb size bd : Nat) (s : GcState)
    (hbd : s.ws.todo_bd = some bd) (hg : growth_path P size bd (sync_free bd s) = false) :
    todo_block_full P nb size s =
      some (replace_block P nb size (retire_block P bd (sync_free bd s))) := by
  unfold todo_block_full
  rw [hbd]
  simp only [hg]
  rfl

theorem replace_block_effect (P : Config) (nb size : Nat) (s : GcState) :
    ∃ tb, (replace_block P nb size s).1.ws.todo_bd = some tb ∧
      (replace_block P nb size s).2 = (replace_block P nb size s).1.ws.todo_free ∧
      (∀ i, i ≠ tb → (replace_block P nb size s).1.heap i = s.heap i) ∧
      ((replace_block P nb size s).1.heap tb).link = none ∧
      ((tb = nb ∧ (replace_block P nb size s).1.ws.part_list = s.ws.part_list ∧
          (replace_block P nb size s).1.ws.n_part_blocks = s.ws.n_part_blocks) ∨
        (s.ws.part_list = some tb ∧
          (replace_block P nb size s).1.ws.part_list = (s.heap tb).link ∧
          (replace_block P nb size s).1.ws.n_part_blocks = s.ws.n_part_blocks - 1)) ∧
      (replace_block P nb size s).1.ws.scavd_list = s.ws.scavd_list ∧
      (replace_block P nb size s).1.ws.n_scavd_blocks = s.ws.n_scavd_blocks ∧
      (replace_block P nb size s).1.ws.buffer_todo_bd = s.ws.buffer_todo_bd ∧
      (replace_block P nb size s).1.ws.scan_bd = s.ws.scan_bd ∧
      (replace_block P nb size s).1.stp = s.stp := by
  obtain ⟨tb, e1, e2, e3, e4, e5, e6, e7, e8, e9⟩ := alloc_todo_block_effect P nb size
    { s with ws := { s.ws with todo_bd := none, todo_free := 0, todo_lim := 0 } }
  exact ⟨tb, e1, rfl, e2, e3, e4, e5, e6, e7, e8, e9⟩

/-- The publish path keeps every block in at most one list: the old todo block
goes to the tail of the queue. -/
theorem publish_path_one_list (P : Config) (nb size bd : Nat) (s : GcState)
    (pl sl q : List Nat) (h : OneList s pl sl q)
    (hnb : nb ∉ s.ws.buffer_todo_bd.toList ++ s.ws.todo_bd.toList ++ pl ++ sl ++ q)
    (hbd : s.ws.todo_bd = some bd) (hl : (s.heap bd).link = none) :
    ∃ pl', (pl' = pl ∨ pl' = pl.tail) ∧
      OneList (replace_block P nb size (publish bd (sync_free bd s))).1 pl' sl (q ++ [bd]) := by
  unfold OneList at h
  simp only [List.mem_append, not_or] at hnb
  obtain ⟨⟨⟨⟨nb1, nb2⟩, nb3⟩, nb4⟩, nb5⟩ := hnb
  have hs1 : Owned (sync_free bd s) (s.ws.buffer_todo_bd.toList ++ s.ws.todo_bd.toList) pl sl q :=
    Owned_of_links s _ _ pl sl q h (sync_free_link bd s) rfl rfl rfl
  rw [hbd] at hs1 nb2
  simp only [Option.toList_some] at hs1 nb2
  have hne : nb ≠ bd := fun e => nb2 (by rw [e]; exact List.mem_singleton_self _)
  have hnd := hs1.2.2.2
  rw [nodup4_iff] at hnd
  obtain ⟨n1, _, _, _, n5, _, _⟩ := hnd
  have htB : bd ∉ s.ws.buffer_todo_bd.toList :=
    fun hm => (List.nodup_append.mp n1).2.2 hm (List.mem_singleton_self _)
  obtain ⟨t1, t2, t3⟩ := n5 bd (List.mem_append_right _ (List.mem_singleton_self _))
  have h0 : Owned (sync_free bd s) s.ws.buffer_todo_bd.toList pl sl q :=
    Owned_mono _ _ _ pl sl q hs1 (List.nodup_append.mp n1).1
      (fun x hx => List.mem_append_left _ hx)
  have hl1 : ((sync_free bd s).heap bd).link = none := by
    rw [sync_free_link]; exact hl
  have o2 := publish_owned bd (sync_free bd s) _ pl sl q h0 htB t1 t2 t3 hl1
  have o3 : Owned
      { publish bd (sync_free bd s) with
        ws := { (publish bd (sync_free bd s)).ws with
                todo_bd := none, todo_free := 0, todo_lim := 0 } }
      s.ws.buffer_todo_bd.toList pl sl (q ++ [bd]) :=
    Owned_of_links _ _ _ pl sl _ o2 (fun _ => rfl) rfl rfl rfl
  have hnq : nb ∉ q ++ [bd] := by
    intro hm
    rcases List.mem_append.mp hm with hm | hm
    · exact nb5 hm
    · rw [List.mem_singleton] at hm
      exact hne hm
  obtain ⟨tb', pl4, a1, a2, a3, a4⟩ :=
    alloc_todo_block_owned P nb size _ _ pl sl (q ++ [bd]) o3 nb1 nb3 nb4 hnq
  have hb : (publish bd (sync_free bd s)).ws.buffer_todo_bd = s.ws.buffer_todo_bd := by
    rw [(publish_effect bd (sync_free bd s)).1]; rfl
  have a2' := a2.trans hb
  refine ⟨pl4, ?_, ?_⟩
  · rcases a3 with a3 | a3
    · exact Or.inl a3
    · right; rw [a3]; rfl
  · unfold OneList
    simp only [replace_block]
    rw [a1, a2']
    exact a4

/-- C11. Retirement routing in `todo_block_full`: when the growth path is not
taken and the todo block `bd` is not the scan block, a fully scanned block
(`scan = free`) is handed to `push_scanned_block`, which makes it the head of
`part_list` or of `scavd_list`, and the step's queue is unchanged; a block with
`scan < free` is appended at the tail of the step's todo queue, `n_todos` grows
by one and the local lists do not receive it. In both cases
`alloc_todo_block` then installs a replacement todo block. -/
theorem todo_block_full_retires (P : Config) (nb size bd : Nat) (s : GcState)
    (hbd : s.ws.todo_bd = some bd)
    (hg : growth_path P size bd (sync_free bd s) = false)
    (hns : some bd ≠ s.ws.scan_bd) :
    ((s.heap bd).scan = s.ws.todo_free →
      todo_block_full P nb size s =
        some (replace_block P nb size (push_scanned_block P bd (sync_free bd s))) ∧
      (((push_scanned_block P bd (sync_free bd s)).ws.part_list = some bd ∧
          ((push_scanned_block P bd (sync_free bd s)).heap bd).link = s.ws.part_list ∧
          (push_scanned_block P bd (sync_free bd s)).ws.scavd_list = s.ws.scavd_list) ∨
        ((push_scanned_block P bd (sync_free bd s)).ws.scavd_list = some bd ∧
          ((push_scanned_block P bd (sync_free bd s)).heap bd).link = s.ws.scavd_list ∧
          (push_scanned_block P bd (sync_free bd s)).ws.part_list = s.ws.part_list)) ∧
      (replace_block P nb size (push_scanned_block P bd (sync_free bd s))).1.stp = s.stp) ∧
    ((s.heap bd).scan < s.ws.todo_free →
      todo_block_full P nb size s =
        some (replace_block P nb size (publish bd (sync_free bd s))) ∧
      (replace_block P nb size (publish bd (sync_free bd s))).1.stp.todos_last = some bd ∧
      (replace_block P nb size (publish bd (sync_free bd s))).1.stp.n_todos =
        s.stp.n_todos + 1 ∧
      (publish bd (sync_free bd s)).ws = s.ws ∧
      (replace_block P nb size (publish bd (sync_free bd s))).1.ws.scavd_list =
        s.ws.scavd_list ∧
      (replace_block P nb size (publish bd (sync_free bd s))).1.ws.n_scavd_blocks =
        s.ws.n_scavd_blocks ∧
      (∀ pl sl q, OneList s pl sl q →
        nb ∉ s.ws.buffer_todo_bd.toList ++ s.ws.todo_bd.toList ++ pl ++ sl ++ q →
        (s.heap bd).link = none →
        ∃ pl', (pl' = pl ∨ pl' = pl.tail) ∧
          OneList (replace_block P nb size (publish bd (sync_free bd s))).1 pl' sl
            (q ++ [bd]))) ∧
    (∃ s' p tb, todo_block_full P nb size s = some (s', p) ∧ s'.ws.todo_bd = some tb ∧
      p = s'.ws.todo_free ∧ (s'.heap tb).link = none) := by
  have heq := todo_block_full_retire_eq P nb size bd s hbd hg
  have hscan : ((sync_free bd s).heap bd).scan = (s.heap bd).scan := by simp [sync_free]
  have hfree : ((sync_free bd s).heap bd).free = s.ws.todo_free := by simp [sync_free]
  have hns' : some bd ≠ (sync_free bd s).ws.scan_bd := hns
  refine ⟨?_, ?_, ?_⟩
  · intro hsc
    have hr : retire_block P bd (sync_free bd s) = push_scanned_block P bd (sync_free bd s) := by
      unfold retire_block
      rw [if_pos hns', if_pos (by rw [hscan, hfree]; exact hsc)]
    rw [hr] at heq
    obtain ⟨e1, _, _, _, e5⟩ := push_scanned_block_effect P bd (sync_free bd s)
    obtain ⟨_, _, _, _, _, _, _, _, _, _, r10⟩ :=
      replace_block_effect P nb size (push_scanned_block P bd (sync_free bd s))
    refine ⟨heq, ?_, r10.trans e1⟩
    rcases e5 with ⟨a, b, _, d, _⟩ | ⟨a, b, _, d, _⟩
    · exact Or.inl ⟨a, b, d⟩
    · exact Or.inr ⟨a, b, d⟩
  · intro hsc
    have hr : retire_block P bd (sync_free bd s) = publish bd (sync_free bd s) := by
      unfold retire_block
      rw [if_pos hns', if_neg (by rw [hscan, hfree]; omega)]
    rw [hr] at heq
    obtain ⟨_, _, _, _, _, _, r6, r7, _, _, r10⟩ :=
      replace_block_effect P nb size (publish bd (sync_free bd s))
    have p1 : (publish bd (sync_free bd s)).ws = s.ws := (publish_effect bd (sync_free bd s)).1
    have p2 : (publish bd (sync_free bd s)).stp.todos_last = some bd ∧
        (publish bd (sync_free bd s)).stp.n_todos = s.stp.n_todos + 1 := by
      unfold publish
      split <;> exact ⟨rfl, rfl⟩
    refine ⟨heq, by rw [r10]; exact p2.1, by rw [r10]; exact p2.2, p1, by rw [r6, p1],
      by rw [r7, p1], ?_⟩
    intro pl sl q h hnb hl
    exact publish_path_one_list P nb size bd s pl sl q h hnb hbd hl
  · obtain ⟨tb, r1, r2, _, r4, _⟩ :=
      replace_block_effect P nb size (retire_block P bd (sync_free bd s))
    exact ⟨(replace_block P nb size (retire_block P bd (sync_free bd s))).1,
      (replace_block P nb size (retire_block P bd (sync_free bd s))).2, tb, heq, r1, r2, r4⟩

/-- Witness of C11 (Scenario C): capacity 1000, work unit 100, `free = 950`,
`scan = 850`, queue empty, the todo block is not the scan block: the queue
becomes [0] and block 7 from the allocator is the new todo block. -/
theorem todo_block_full_retires_witness :
    todo_block_full cfg 7 30 stC = some (replace_block cfg 7 30 (publish 0 (sync_free 0 stC))) ∧
    (replace_block cfg 7 30 (publish 0 (sync_free 0 stC))).1.stp.todos_last = some 0 ∧
    (replace_block cfg 7 30 (publish 0 (sync_free 0 stC))).1.stp.n_todos = 1 ∧
    (∃ pl', (pl' = [] ∨ pl' = [].tail) ∧
      OneList (replace_block cfg 7 30 (publish 0 (sync_free 0 stC))).1 pl' [] [0]) :=
  have h := (todo_block_full_retires cfg 7 30 0 stC (by decide) (by decide) (by decide)).2.1
    (by decide)
  ⟨h.1, h.2.1, h.2.2.1, h.2.2.2.2.2.2 [] [] [] (by decide) (by decide) (by decide)⟩

/-- C12. Scan-block exception: when `todo_block_full` does not take the growth
path and the todo block `bd` is the workspace's scan block, `bd` is given to no
list: the step (`todos`, `todos_last`, `n_todos`) is unchanged, `scavd_list` is
unchanged, `part_list` can only lose its head to `alloc_todo_block` and `bd`
is on neither local list afterwards, `scan_bd` still designates `bd`, the scan
pointer and the link of `bd` are unchanged, and `todo_bd` designates the
replacement that `alloc_todo_block` installed, a block other than `bd`. -/
theorem todo_block_full_scan_block (P : Config) (nb size bd : Nat) (s : GcState)
    (hbd : s.ws.todo_bd = some bd)
    (hg : growth_path P size bd (sync_free bd s) = false)
    (hsb : s.ws.scan_bd = some bd)
    (hnb : nb ≠ bd) (hpl : s.ws.part_list ≠ some bd) :
    ∃ s' p tb, todo_block_full P nb size s = some (s', p) ∧
      s'.stp = s.stp ∧ s'.ws.scan_bd = some bd ∧
      (s'.heap bd).scan = (s.heap bd).scan ∧ (s'.heap bd).link = (s.heap bd).link ∧
      s'.ws.scavd_list = s.ws.scavd_list ∧ s'.ws.n_scavd_blocks = s.ws.n_scavd_blocks ∧
      s'.ws.todo_bd = some tb ∧ tb ≠ bd ∧
      ((tb = nb ∧ s'.ws.part_list = s.ws.part_list ∧
          s'.ws.n_part_blocks = s.ws.n_part_blocks) ∨
        (s.ws.part_list = some tb ∧ s'.ws.part_list = (s.heap tb).link ∧
          s'.ws.n_part_blocks = s.ws.n_part_blocks - 1)) ∧
      (∀ pl sl, Chain s.heap s.ws.part_list pl → Chain s.heap s.ws.scavd_list sl →
        (∀ b ∈ pl, b ∉ sl) → nb ∉ pl → nb ∉ sl → bd ∉ pl → bd ∉ sl →
        ∃ pl', (pl' = pl ∨ pl' = pl.tail) ∧ Chain s'.heap s'.ws.part_list pl' ∧
          Chain s'.heap s'.ws.scavd_list sl ∧ bd ∉ pl' ∧ bd ∉ sl) := by
  have heq := todo_block_full_retire_eq P nb size bd s hbd hg
  have hr : retire_block P bd (sync_free bd s) = sync_free bd s := by
    unfold retire_block
    have : ¬ (some bd ≠ (sync_free bd s).ws.scan_bd) := by
      intro h; exact h hsb.symm
    rw [if_neg this]
  rw [hr] at heq
  obtain ⟨tb, r1, _, r3, _, r5, r6, r7, _, r9, r10⟩ :=
    replace_block_effect P nb size (sync_free bd s)
  have htb : tb ≠ bd := by
    rcases r5 with ⟨a, _, _⟩ | ⟨a, _, _⟩
    · rw [a]; exact hnb
    · intro e
      exact hpl (by rw [← e]; exact a)
  have hbd' : (replace_block P nb size (sync_free bd s)).1.heap bd = (sync_free bd s).heap bd :=
    r3 bd (fun e => htb e.symm)
  refine ⟨(replace_block P nb size (sync_free bd s)).1,
    (replace_block P nb size (sync_free bd s)).2, tb, heq, r10, r9.trans hsb, ?_, ?_, r6, r7,
    r1, htb, ?_, ?_⟩
  · rw [hbd']; simp [sync_free]
  · rw [hbd']; exact sync_free_link bd s bd
  · rcases r5 with ⟨a, b, c⟩ | ⟨a, b, c⟩
    · exact Or.inl ⟨a, b, c⟩
    · refine Or.inr ⟨a, ?_, c⟩
      rw [b]
      exact sync_free_link bd s tb
  · intro pl sl hc1 hc2 hd n1 n2 b1 b2
    have c1 : Chain (sync_free bd s).heap (sync_free bd s).ws.part_list pl :=
      (Chain_congr _ _ _ _ (fun i _ => sync_free_link bd s i)).mpr hc1
    have c2 : Chain (sync_free bd s).heap (sync_free bd s).ws.scavd_list sl :=
      (Chain_congr _ _ _ _ (fun i _ => sync_free_link bd s i)).mpr hc2
    obtain ⟨tb', pl', _, a2, a3, a4, _, _, _⟩ := alloc_todo_block_lists P nb size
      { sync_free bd s with
        ws := { (sync_free bd s).ws with todo_bd := none, todo_free := 0, todo_lim := 0 } }
      pl sl c1 c2 hd ⟨n1, n2⟩
    have hsub : pl' = pl ∨ pl' = pl.tail := by
      rcases a2 with ⟨_, y, _⟩ | ⟨y, _⟩
      · exact Or.inl y
      · right; rw [y]; rfl
    refine ⟨pl', hsub, a3, a4, ?_, b2⟩
    rcases hsub with e | e
    · rw [e]; exact b1
    · rw [e]; exact fun hm => b1 (List.mem_of_mem_tail hm)

/-- Witness of C12: block 0 is todo block and scan block, 700 words are
requested: block 7 becomes the todo block and block 0 stays the scan block. -/
theorem todo_block_full_scan_block_witness :
    ∃ s' p tb, todo_block_full cfg 7 700 stS = some (s', p) ∧ s'.stp = stS.stp ∧
      s'.ws.scan_bd = some 0 ∧ s'.ws.todo_bd = some tb ∧ tb ≠ 0 :=
  (todo_block_full_scan_block cfg 7 700 0 stS (by decide) (by decide) (by decide) (by decide)
    (by decide)).imp fun _ h => h.imp fun _ h => h.imp fun _ h =>
      ⟨h.1, h.2.1, h.2.2.1, h.2.2.2.2.2.2.2.1, h.2.2.2.2.2.2.2.2.1⟩

/-! ### Cursor ordering and links -/

theorem alloc_todo_block_inv (P : Config) (nb size : Nat) (s : GcState)
    (hpart : ∀ pb, s.ws.part_list = some pb → cursor_ok P (s.heap pb))
    (hnb : (s.heap nb).start ≤ (s.heap nb).free ∧
      (s.heap nb).free ≤ (s.heap nb).start + P.BLOCK_SIZE_W) :
    TodoInv P (alloc_todo_block P nb size s).1 := by
  unfold alloc_todo_block
  cases hpb : part_block P size s with
  | some pb =>
    obtain ⟨h1, _⟩ := part_block_some P size s pb hpb
    obtain ⟨c1, c2, c3⟩ := hpart pb h1
    refine ⟨pb, rfl, ?_⟩
    simp only [install_todo_block, take_part_block, setBlock_same, stg_min_eq, stg_max_eq]
    refine ⟨c1, c2, ?_, ?_⟩ <;> omega
  | none =>
    refine ⟨nb, rfl, ?_⟩
    simp only [install_todo_block, init_fresh_block, setBlock_same, stg_min_eq, stg_max_eq]
    refine ⟨le_refl _, hnb.1, ?_, ?_⟩ <;> omega

theorem retire_block_part_list (P : Config) (bd : Nat) (s : GcState) :
    (retire_block P bd s).ws.part_list = s.ws.part_list ∨
      (retire_block P bd s).ws.part_list = some bd := by
  rcases retire_block_cases P bd s with e | e | e
  · rw [e]; exact Or.inl rfl
  · rw [e]
    rcases (push_scanned_block_effect P bd s).2.2.2.2 with ⟨a, _⟩ | ⟨_, _, _, d, _⟩
    · exact Or.inr a
    · exact Or.inl d
  · rw [e, (publish_effect bd s).1]
    exact Or.inl rfl

/-- C15. Cursor ordering of the active todo block: when the todo block satisfies
`start ≤ scan ≤ todo_free ≤ todo_lim ≤ start + BLOCK_SIZE_W`, the head of
`part_list` satisfies `start ≤ scan ≤ free ≤ start + BLOCK_SIZE_W` and the
allocator's block has `free = start`, then the todo block satisfies the same
ordering after `alloc_todo_block` and after `todo_block_full`, on the growth
path and on every retirement path; on the growth path `todo_lim` does not
decrease. -/
theorem todo_cursor_order (P : Config) (nb size bd : Nat) (s : GcState)
    (hbd : s.ws.todo_bd = some bd)
    (hinv : (s.heap bd).start ≤ (s.heap bd).scan ∧ (s.heap bd).scan ≤ s.ws.todo_free ∧
      s.ws.todo_free ≤ s.ws.todo_lim ∧ s.ws.todo_lim ≤ (s.heap bd).start + P.BLOCK_SIZE_W)
    (hpart : ∀ pb, s.ws.part_list = some pb → cursor_ok P (s.heap pb))
    (hfresh : (s.heap nb).free = (s.heap nb).start) :
    TodoInv P (alloc_todo_block P nb size s).1 ∧
    ∃ s' p, todo_block_full P nb size s = some (s', p) ∧ TodoInv P s' ∧
      (growth_path P size bd (sync_free bd s) = true → s.ws.todo_lim ≤ s'.ws.todo_lim) := by
  obtain ⟨i1, i2, i3, i4⟩ := hinv
  refine ⟨alloc_todo_block_inv P nb size s hpart (by omega), ?_⟩
  by_cases hg : growth_path P size bd (sync_free bd s) = true
  · refine ⟨(grow_limit P size bd (sync_free bd s)).1, (grow_limit P size bd (sync_free bd s)).2,
      ?_, ?_, ?_⟩
    · unfold todo_block_full
      rw [hbd]
      simp only [hg, if_true]
    · refine ⟨bd, hbd, ?_⟩
      simp only [grow_limit, sync_free, setBlock_same, stg_min_eq, stg_max_eq]
      refine ⟨i1, i2, ?_, ?_⟩ <;> omega
    · intro _
      simp only [grow_limit, sync_free, setBlock_same, stg_min_eq, stg_max_eq]
      omega
  · have hg' : growth_path P size bd (sync_free bd s) = false := by
      cases h : growth_path P size bd (sync_free bd s)
      · rfl
      · exact absurd h hg
    refine ⟨(replace_block P nb size (retire_block P bd (sync_free bd s))).1,
      (replace_block P nb size (retire_block P bd (sync_free bd s))).2,
      todo_block_full_retire_eq P nb size bd s hbd hg', ?_, fun h => absurd h hg⟩
    -- the descriptors seen by `alloc_todo_block`
    have hcur : ∀ i, ((retire_block P bd (sync_free bd s)).heap i).start = (s.heap i).start ∧
        ((retire_block P bd (sync_free bd s)).heap i).scan = (s.heap i).scan ∧
        ((retire_block P bd (sync_free bd s)).heap i).free =
          (if i = bd then s.ws.todo_free else (s.heap i).free) := by
      intro i
      obtain ⟨f1, f2, f3⟩ := retire_block_free P bd (sync_free bd s) i
      rw [f1, f2, f3]
      by_cases hi : i = bd
      · subst hi; simp [sync_free]
      · simp [sync_free, setBlock_other _ _ _ _ hi, hi]
    have hbdok : cursor_ok P ((retire_block P bd (sync_free bd s)).heap bd) := by
      obtain ⟨f1, f2, f3⟩ := hcur bd
      unfold cursor_ok
      rw [f1, f2, f3, if_pos rfl]
      exact ⟨i1, i2, by omega⟩
    apply alloc_todo_block_inv
    · intro pb hpb
      have hpb' : (retire_block P bd (sync_free bd s)).ws.part_list = some pb := hpb
      by_cases hpbd : pb = bd
      · rw [hpbd]; exact hbdok
      · rcases retire_block_part_list P bd (sync_free bd s) with e | e
        · rw [e] at hpb'
          obtain ⟨f1, f2, f3⟩ := hcur pb
          have := hpart pb hpb'
          unfold cursor_ok at this ⊢
          show ((retire_block P bd (sync_free bd s)).heap pb).start ≤ _ ∧ _
          rw [f1, f2, f3, if_neg hpbd]
          exact this
        · rw [e] at hpb'
          exact absurd (Option.some.inj hpb').symm hpbd
    · obtain ⟨f1, _, f3⟩ := hcur nb
      show ((retire_block P bd (sync_free bd s)).heap nb).start ≤
          ((retire_block P bd (sync_free bd s)).heap nb).free ∧
        ((retire_block P bd (sync_free bd s)).heap nb).free ≤
          ((retire_block P bd (sync_free bd s)).heap nb).start + P.BLOCK_SIZE_W
      rw [f1, f3]
      by_cases hi : nb = bd
      · rw [if_pos hi, hi]
        omega
      · rw [if_neg hi]
        omega

/-- Witness of C15: the state of Scenario C, where the todo block is published
and block 7 from the allocator replaces it. -/
theorem todo_cursor_order_witness :
    TodoInv cfg (alloc_todo_block cfg 7 30 stC).1 ∧
    ∃ s' p, todo_block_full cfg 7 30 stC = some (s', p) ∧ TodoInv cfg s' :=
  have h := todo_cursor_order cfg 7 30 0 stC (by decide) (by decide)
    (fun _ hpb => nomatch hpb) (by decide)
  ⟨h.1, h.2.imp fun _ h => h.imp fun _ h => ⟨h.1, h.2.1⟩⟩

theorem retire_block_last_link (P : Config) (bd : Nat) (s : GcState)
    (hlast : ∀ l, s.stp.todos_last = some l → (s.heap l).link = none)
    (hl : (s.heap bd).link = none) (hne : s.stp.todos_last ≠ some bd) :
    ∀ l, (retire_block P bd s).stp.todos_last = some l →
      ((retire_block P bd s).heap l).link = none := by
  intro l hll
  rcases retire_block_cases P bd s with e | e | e
  · rw [e] at hll ⊢
    exact hlast l hll
  · rw [e] at hll ⊢
    obtain ⟨e1, _, _, e4, _⟩ := push_scanned_block_effect P bd s
    rw [e1] at hll
    have hlb : l ≠ bd := fun c => hne (c ▸ hll)
    rw [e4 l hlb]
    exact hlast l hll
  · rw [e] at hll ⊢
    revert hll
    unfold publish
    split
    · intro hll
      simp only [Option.some.injEq] at hll
      subst hll
      exact hl
    · rename_i l0 hl0
      intro hll
      simp only [Option.some.injEq] at hll
      subst hll
      have hb : bd ≠ l0 := fun c => hne (c ▸ hl0)
      simp only [setBlock_other _ _ _ _ hb]
      exact hl

/-- C16. No dangling links: when the buffered block (if any) and the last block
of the step's queue have an empty link, every block that `grab_todo_block`
returns has an empty link, every block that `alloc_todo_block` installs as
todo block has an empty link, and the last block of the queue has an empty
link after `grab_todo_block`, after the publish step and after
`todo_block_full` as a whole (for a todo block with an empty link, as the
function asserts, that is not the tail of the queue). -/
theorem no_dangling_links (P : Config) (nb size : Nat) (s : GcState)
    (hbuf : ∀ b, s.ws.buffer_todo_bd = some b → (s.heap b).link = none)
    (hlast : ∀ l, s.stp.todos_last = some l → (s.heap l).link = none) :
    (∀ b, (grab_todo_block s).2 = some b → ((grab_todo_block s).1.heap b).link = none) ∧
    (∀ l, (grab_todo_block s).1.stp.todos_last = some l →
      ((grab_todo_block s).1.heap l).link = none) ∧
    (∀ tb, (alloc_todo_block P nb size s).1.ws.todo_bd = some tb →
      ((alloc_todo_block P nb size s).1.heap tb).link = none) ∧
    (∀ bd, (s.heap bd).link = none → s.stp.todos_last ≠ some bd →
      (publish bd s).stp.todos_last = some bd ∧ ((publish bd s).heap bd).link = none) ∧
    (∀ bd, s.ws.todo_bd = some bd → (s.heap bd).link = none → s.stp.todos_last ≠ some bd →
      ∃ s' p, todo_block_full P nb size s = some (s', p) ∧
        ∀ l, s'.stp.todos_last = some l → (s'.heap l).link = none) := by
  refine ⟨?_, ?_, ?_, ?_, ?_⟩
  · intro b hb
    cases hbf : s.ws.buffer_todo_bd with
    | some b0 =>
      have hg : grab_todo_block s =
          ({ s with ws := { s.ws with buffer_todo_bd := none } }, some b0) := by
        unfold grab_todo_block
        rw [hbf]
      rw [hg] at hb ⊢
      simp only [Option.some.injEq] at hb
      subst hb
      exact hbuf b0 hbf
    | none =>
      cases hq : s.stp.todos with
      | none =>
        rw [grab_empty s hbf hq] at hb
        cases hb
      | some a =>
        rw [grab_head s a hbf hq] at hb ⊢
        simp only [Option.some.injEq] at hb
        subst hb
        simp
  · intro l hl
    cases hbf : s.ws.buffer_todo_bd with
    | some b0 =>
      have hg : grab_todo_block s =
          ({ s with ws := { s.ws with buffer_todo_bd := none } }, some b0) := by
        unfold grab_todo_block
        rw [hbf]
      rw [hg] at hl ⊢
      exact hlast l hl
    | none =>
      cases hq : s.stp.todos with
      | none =>
        rw [grab_empty s hbf hq] at hl ⊢
        exact hlast l hl
      | some a =>
        rw [grab_head s a hbf hq] at hl ⊢
        simp only at hl
        by_cases hc : s.stp.todos = s.stp.todos_last
        · rw [if_pos hc] at hl
          cases hl
        · rw [if_neg hc] at hl
          by_cases hla : l = a
          · subst hla; simp
          · simp only [setBlock_other _ _ _ _ hla]
            exact hlast l hl
  · intro tb htb
    obtain ⟨tb', e1, _, e3, _⟩ := alloc_todo_block_effect P nb size s
    have : tb' = tb := Option.some.inj (e1.symm.trans htb)
    rw [← this]
    exact e3
  · intro bd hl hne
    unfold publish
    split
    · exact ⟨rfl, hl⟩
    · rename_i l0 hl0
      have hb : bd ≠ l0 := fun c => hne (c ▸ hl0)
      refine ⟨rfl, ?_⟩
      simp only [setBlock_other _ _ _ _ hb]
      exact hl
  · intro bd hbd hl hne
    have hlast1 : ∀ l, (sync_free bd s).stp.todos_last = some l →
        ((sync_free bd s).heap l).link = none := by
      intro l hll
      rw [sync_free_link]
      exact hlast l hll
    have hl1 : ((sync_free bd s).heap bd).link = none := by
      rw [sync_free_link]; exact hl
    by_cases hg : growth_path P size bd (sync_free bd s) = true
    · refine ⟨(grow_limit P size bd (sync_free bd s)).1,
        (grow_limit P size bd (sync_free bd s)).2, ?_, ?_⟩
      · unfold todo_block_full
        rw [hbd]
        simp only [hg, if_true]
      · intro l hll
        exact hlast1 l hll
    · have hg' : growth_path P size bd (sync_free bd s) = false := by
        cases h : growth_path P size bd (sync_free bd s)
        · rfl
        · exact absurd h hg
      refine ⟨(replace_block P nb size (retire_block P bd (sync_free bd s))).1,
        (replace_block P nb size (retire_block P bd (sync_free bd s))).2,
        todo_block_full_retire_eq P nb size bd s hbd hg', ?_⟩
      intro l hll
      obtain ⟨tb, _, _, r3, r4, _, _, _, _, _, r10⟩ :=
        replace_block_effect P nb size (retire_block P bd (sync_free bd s))
      rw [r10] at hll
      by_cases hlt : l = tb
      · rw [hlt]; exact r4
      · rw [r3 l hlt]
        exact retire_block_last_link P bd (sync_free bd s) hlast1 hl1 hne l hll

/-- Witness of C16: in the state of Scenario B the queue holds block 5, whose
link is empty; `grab_todo_block` returns it with an empty link. -/
theorem no_dangling_links_witness :
    (grab_todo_block stB).2 = some 5 ∧ ((grab_todo_block stB).1.heap 5).link = none :=
  have h := no_dangling_links cfg 7 30 stB (fun _ hb => nomatch hb)
    (fun l hl => by
      have : l = 5 := (Option.some.inj hl).symm
      subst this
      decide)
  ⟨by decide, h.1 5 (by decide)⟩

/-! ### The boundary of the growth test -/

/-- A fully scanned block that `todo_block_full` hands to `push_scanned_block`
is not empty when the request is strictly smaller than a block. -/
theorem pushed_block_not_empty (P : Config) (size bd : Nat) (s : GcState)
    (hsize : size < P.BLOCK_SIZE_W) (hWU : 2 ≤ P.WORK_UNIT_WORDS)
    (hg : growth_path P size bd (sync_free bd s) = false)
    (hscan : (s.heap bd).scan = s.ws.todo_free) :
    ((sync_free bd s).heap bd).free ≠ ((sync_free bd s).heap bd).start := by
  have hng : ¬ growth_path P size bd (sync_free bd s) = true := by
    rw [hg]; exact Bool.false_ne_true
  rw [growth_path_true] at hng
  simp only [sync_free, setBlock_same] at hng ⊢
  intro he
  apply hng
  refine ⟨Or.inr ?_, ?_⟩
  · rw [hscan]
    have : 1 ≤ P.WORK_UNIT_WORDS / 2 := by omega
    omega
  · omega

/-- Counterexample to C18 as stated. The todo block 1 is empty
(`start = scan = free = 1000`), it is not the scan block, and the request is
exactly one block (1000 words). The test `free + size < start + BLOCK_SIZE_W`
fails, the growth path is not taken, the block is fully scanned and
`todo_block_full` hands it to `push_scanned_block` although
`bd->free == bd->start`: the empty block ends up on `part_list` and block 7
from the allocator becomes the todo block. -/
theorem empty_block_pushed_at_exact_fit :
    stE.ws.todo_bd = some 1 ∧
    ((stE.heap 1).start ≤ (stE.heap 1).scan ∧ (stE.heap 1).scan ≤ stE.ws.todo_free ∧
      stE.ws.todo_free ≤ stE.ws.todo_lim ∧
      stE.ws.todo_lim ≤ (stE.heap 1).start + cfg.BLOCK_SIZE_W) ∧
    1000 ≤ cfg.BLOCK_SIZE_W ∧ 2 ≤ cfg.WORK_UNIT_WORDS ∧
    growth_path cfg 1000 1 (sync_free 1 stE) = false ∧
    some 1 ≠ stE.ws.scan_bd ∧
    ((sync_free 1 stE).heap 1).scan = ((sync_free 1 stE).heap 1).free ∧
    ((sync_free 1 stE).heap 1).free = ((sync_free 1 stE).heap 1).start ∧
    todo_block_full cfg 7 1000 stE =
      some (replace_block cfg 7 1000 (push_scanned_block cfg 1 (sync_free 1 stE))) ∧
    (todo_block_full cfg 7 1000 stE).map
        (fun r => (r.1.ws.part_list, r.1.ws.n_part_blocks, r.1.ws.todo_bd)) =
      some (some 1, 1, some 7) := by
  refine ⟨by decide, by decide, by decide, by decide, by decide, by decide, by decide,
    by decide, ?_, by decide⟩
  rw [todo_block_full_retire_eq cfg 7 1000 1 stE (by decide) (by decide)]
  have hr : retire_block cfg 1 (sync_free 1 stE) = push_scanned_block cfg 1 (sync_free 1 stE) := by
    unfold retire_block
    rw [if_pos (by decide), if_pos (by decide)]
  rw [hr]

/-- Counterexample to C19 as stated. In the state of Scenario B (queue
non-empty, `free = 950`, capacity 1000) a request of 50 words fits exactly in
the todo block, so the condition of the comment holds; the code's test
`free + size < start + BLOCK_SIZE_W` fails, the growth path is not taken, the
todo block 0 is published to the queue (behind block 5) and block 7 from the
allocator becomes the todo block. -/
theorem exact_fit_retires_block :
    comment_growth_condition cfg 50 0 stB ∧
    growth_path cfg 50 0 (sync_free 0 stB) = false ∧
    todo_block_full cfg 7 50 stB =
      some (replace_block cfg 7 50 (publish 0 (sync_free 0 stB))) ∧
    (todo_block_full cfg 7 50 stB).map
        (fun r => (r.1.ws.todo_bd, r.1.stp.todos, r.1.stp.todos_last, r.1.stp.n_todos,
          (r.1.heap 5).link)) =
      some (some 7, some 5, some 0, 2, some 0) := by
  refine ⟨by decide, by decide, ?_, by decide⟩
  rw [todo_block_full_retire_eq cfg 7 50 0 stB (by decide) (by decide)]
  have hr : retire_block cfg 0 (sync_free 0 stB) = publish 0 (sync_free 0 stB) := by
    unfold retire_block
    rw [if_pos (by decide), if_neg (by decide)]
  rw [hr]

theorem alloc_todo_block_of_none (P : Config) (nb size : Nat) (s : GcState)
    (h : part_block P size s = none) :
    alloc_todo_block P nb size s = install_todo_block P size nb (init_fresh_block P nb s) := by
  unfold alloc_todo_block
  rw [h]

/-- C20. A block retired to `part_list` is not handed straight back: when
`todo_block_full` (growth path not taken, todo block `bd` not the scan block and
fully scanned) files `bd` on `part_list`, with `WORK_UNIT_WORDS ≥ 2` and a
request that fits in an `int`, the remaining capacity of `bd` is at most
`size`, so `alloc_todo_block` does not pop it: the allocator's block `nb`
becomes the todo block, `bd` is the head of `part_list`, linked to the old
head, and `n_part_blocks` is one larger than before. -/
theorem part_block_not_handed_back (P : Config) (nb size bd : Nat) (s : GcState)
    (hbd : s.ws.todo_bd = some bd)
    (hg : growth_path P size bd (sync_free bd s) = false)
    (hns : some bd ≠ s.ws.scan_bd)
    (hscan : (s.heap bd).scan = s.ws.todo_free)
    (hpart : ((s.heap bd).start + P.BLOCK_SIZE_W : Int) - s.ws.todo_free > P.WORK_UNIT_WORDS)
    (hWU : 2 ≤ P.WORK_UNIT_WORDS) (hsz : size < 2 ^ 31) (hnb : nb ≠ bd) :
    ((s.heap bd).start + P.BLOCK_SIZE_W : Int) - s.ws.todo_free ≤ size ∧
    ∃ s' p, todo_block_full P nb size s = some (s', p) ∧
      s'.ws.todo_bd = some nb ∧ s'.ws.part_list = some bd ∧
      (s'.heap bd).link = s.ws.part_list ∧
      s'.ws.n_part_blocks = s.ws.n_part_blocks + 1 := by
  have hng : ¬ growth_path P size bd (sync_free bd s) = true := by
    rw [hg]; exact Bool.false_ne_true
  rw [growth_path_true] at hng
  simp only [sync_free, setBlock_same] at hng
  have hroom : ((s.heap bd).start + P.BLOCK_SIZE_W : Int) - s.ws.todo_free ≤ size := by
    by_contra hc
    apply hng
    refine ⟨Or.inr ?_, ?_⟩
    · rw [hscan]
      have : 1 ≤ P.WORK_UNIT_WORDS / 2 := by omega
      omega
    · omega
  refine ⟨hroom, ?_⟩
  have heq := todo_block_full_retire_eq P nb size bd s hbd hg
  have hr : retire_block P bd (sync_free bd s) = push_scanned_block P bd (sync_free bd s) := by
    unfold retire_block
    have h1 : some bd ≠ (sync_free bd s).ws.scan_bd := hns
    have h2 : ((sync_free bd s).heap bd).scan = ((sync_free bd s).heap bd).free := by
      simp [sync_free, hscan]
    rw [if_pos h1, if_pos h2]
  have hp : push_scanned_block P bd (sync_free bd s) =
      { sync_free bd s with
        heap := setBlock (sync_free bd s).heap bd
          { (sync_free bd s).heap bd with link := (sync_free bd s).ws.part_list }
        ws := { (sync_free bd s).ws with
          part_list := some bd, n_part_blocks := (sync_free bd s).ws.n_part_blocks + 1 } } := by
    unfold push_scanned_block
    have hc : (((sync_free bd s).heap bd).start + P.BLOCK_SIZE_W : Int) -
        ((sync_free bd s).heap bd).free > P.WORK_UNIT_WORDS := by
      simp only [sync_free, setBlock_same]
      exact hpart
    rw [if_pos hc]
  rw [hr, hp] at heq
  refine ⟨_, _, heq, ?_⟩
  have hnone : part_block P size
      { heap := setBlock (sync_free bd s).heap bd
          { (sync_free bd s).heap bd with link := (sync_free bd s).ws.part_list }
        stp := (sync_free bd s).stp
        ws := { (sync_free bd s).ws with
          part_list := some bd, n_part_blocks := (sync_free bd s).ws.n_part_blocks + 1,
          todo_bd := none, todo_free := 0, todo_lim := 0 } } = none := by
    rw [part_block_none_iff]
    refine Or.inr ⟨bd, rfl, ?_⟩
    rw [int_of_nat_eq size hsz]
    simp only [sync_free, setBlock_same]
    exact hroom
  simp only [replace_block]
  rw [alloc_todo_block_of_none P nb size _ hnone]
  refine ⟨rfl, rfl, ?_, rfl⟩
  have hbn : bd ≠ nb := fun e => hnb e.symm
  simp [install_todo_block, init_fresh_block, setBlock_other _ _ _ _ hbn, sync_free]

/-- Witness of C20: block 0 is fully scanned with 600 words left and 700 words
are requested: block 0 goes to the head of `part_list`, in front of block 4,
and block 7 from the allocator becomes the todo block. -/
theorem part_block_not_handed_back_witness :
    ∃ s' p, todo_block_full cfg 7 700 stR = some (s', p) ∧
      s'.ws.todo_bd = some 7 ∧ s'.ws.part_list = some 0 ∧
      (s'.heap 0).link = some 4 ∧ s'.ws.n_part_blocks = 2 :=
  (part_block_not_handed_back cfg 7 700 0 stR (by decide) (by decide) (by decide) (by decide)
    (by decide) (by decide) (by decide) (by decide)).2

/-- C18, amended. The assertion `bd->free != bd->start` of `todo_block_full`
holds for every request strictly smaller than a block: with
`size < BLOCK_SIZE_W` and `WORK_UNIT_WORDS ≥ 2`, whenever the growth path is not
taken and the todo block `bd`, fully scanned and not the scan block, is handed
to `push_scanned_block`, that block is not empty. -/
theorem pushed_block_nonempty_below_capacity (P : Config) (nb size bd : Nat) (s : GcState)
    (hbd : s.ws.todo_bd = some bd)
    (hsize : size < P.BLOCK_SIZE_W) (hWU : 2 ≤ P.WORK_UNIT_WORDS)
    (hg : growth_path P size bd (sync_free bd s) = false)
    (hns : some bd ≠ s.ws.scan_bd)
    (hscan : (s.heap bd).scan = s.ws.todo_free) :
    todo_block_full P nb size s =
      some (replace_block P nb size (push_scanned_block P bd (sync_free bd s))) ∧
    ((sync_free bd s).heap bd).free ≠ ((sync_free bd s).heap bd).start ∧
    s.ws.todo_free ≠ (s.heap bd).start := by
  have heq := todo_block_full_retire_eq P nb size bd s hbd hg
  have hr : retire_block P bd (sync_free bd s) = push_scanned_block P bd (sync_free bd s) := by
    unfold retire_block
    have h1 : some bd ≠ (sync_free bd s).ws.scan_bd := hns
    have h2 : ((sync_free bd s).heap bd).scan = ((sync_free bd s).heap bd).free := by
      simp [sync_free, hscan]
    rw [if_pos h1, if_pos h2]
  rw [hr] at heq
  have hne := pushed_block_not_empty P size bd s hsize hWU hg hscan
  refine ⟨heq, hne, ?_⟩
  simpa [sync_free] using hne

/-- Witness of C18, amended: block 0 (`free = scan = 400`) is the todo block and
700 words are requested: the block is handed to `push_scanned_block` and is not
empty. -/
theorem pushed_block_nonempty_below_capacity_witness :
    todo_block_full cfg 7 700 stR =
      some (replace_block cfg 7 700 (push_scanned_block cfg 0 (sync_free 0 stR))) ∧
    stR.ws.todo_free ≠ (stR.heap 0).start :=
  have h := pushed_block_nonempty_below_capacity cfg 7 700 0 stR (by decide) (by decide)
    (by decide) (by decide) (by decide) (by decide)
  ⟨h.1, h.2.2⟩

/-- C19, amended. Growth whenever the object fits strictly: if the step's todo
queue is non-empty or `todo_free - scan < WORK_UNIT_WORDS / 2`, and the current
object fits strictly below the end of the todo block,
`todo_free + size < start + BLOCK_SIZE_W`, then `todo_block_full` only increases
the limit and keeps the block as todo block; at an exact fit,
`todo_free + size = start + BLOCK_SIZE_W`, the growth path is not taken and the
block is retired and replaced. -/
theorem growth_when_object_fits_strictly (P : Config) (nb size bd : Nat) (s : GcState)
    (hbd : s.ws.todo_bd = some bd)
    (hwork : s.stp.todos ≠ none ∨
      ((s.ws.todo_free : Int) - (s.heap bd).scan < ((P.WORK_UNIT_WORDS / 2 : Nat) : Int))) :
    (s.ws.todo_free + size < (s.heap bd).start + P.BLOCK_SIZE_W →
      ∃ s', todo_block_full P nb size s = some (s', s.ws.todo_free) ∧
        s'.ws.todo_bd = some bd ∧ s'.ws.todo_free = s.ws.todo_free ∧
        s'.stp = s.stp ∧ s'.ws.part_list = s.ws.part_list ∧
        s'.ws.scavd_list = s.ws.scavd_list ∧
        s'.ws.todo_lim = min ((s.heap bd).start + P.BLOCK_SIZE_W)
          (s.ws.todo_lim + max P.WORK_UNIT_WORDS size)) ∧
    (s.ws.todo_free + size = (s.heap bd).start + P.BLOCK_SIZE_W →
      growth_path P size bd (sync_free bd s) = false ∧
      todo_block_full P nb size s =
        some (replace_block P nb size (retire_block P bd (sync_free bd s)))) := by
  constructor
  · intro hfit
    have hg : growth_path P size bd (sync_free bd s) = true := by
      rw [growth_path_true]
      simp only [sync_free, setBlock_same]
      exact ⟨hwork, hfit⟩
    refine ⟨(grow_limit P size bd (sync_free bd s)).1, ?_, hbd, rfl, rfl, rfl, rfl, ?_⟩
    · unfold todo_block_full
      rw [hbd]
      simp only [hg, if_true]
      rfl
    · simp only [grow_limit, sync_free, setBlock_same, stg_min_eq, stg_max_eq]
  · intro hfit
    have hg : growth_path P size bd (sync_free bd s) = false := by
      cases h : growth_path P size bd (sync_free bd s)
      · rfl
      · rw [growth_path_true] at h
        simp only [sync_free, setBlock_same] at h
        omega
    exact ⟨hg, todo_block_full_retire_eq P nb size bd s hbd hg⟩

/-- Witness of C19, amended: in the state of Scenario B a request of 49 words
fits strictly (950 + 49 < 1000): the block is kept, the limit becomes 1000 and
the cursor 950 is returned. -/
theorem growth_when_object_fits_strictly_witness :
    ∃ s', todo_block_full cfg 7 49 stB = some (s', 950) ∧ s'.ws.todo_bd = some 0 ∧
      s'.ws.todo_lim = 1000 :=
  ((growth_when_object_fits_strictly cfg 7 49 0 stB (by decide) (Or.inl (by decide))).1
    (by decide)).imp fun _ h => ⟨h.1, h.2.1, h.2.2.2.2.2.2⟩

end GCUtils
